import Mathlib

/-!
An external reference-count ledger: shallow embedding of `src/referee.h`.

* Pointers are addresses (`Nat`); the null pointer is address `0`.
* `size_t` is a 64-bit unsigned integer: every `+=` / `++` on a `size_t`
  is followed by `% SIZE_MOD`.
* A possibly-null `Referee *` is an `Option Referee`.
* A `RefereeInfo *` handle returned by `ref_info` is the record it points
  at; a store through the handle is `ref_store`.
* `hash.h` (which generates `RefereePtrInfoMap` and the `ref__map_*`
  functions) is not part of the sources, so the map is modelled from the
  specification, and the way `remove` rearranges the key array is a
  parameter (`KeyRemoval`) of every operation that removes.
-/

namespace RefereeLedger

/-! ## Data model -/

/-- A `void *`: a raw address. -/
abbrev Ptr := Nat

/-- The null pointer. -/
def NULL : Ptr := 0

/-- Number of values of a `size_t` (64-bit). -/
def SIZE_MOD : Nat := 2 ^ 64

/-- The constant `REFEREE_INVALID`, defined as `(~((size_t)0))`. -/
def REFEREE_INVALID : Nat := SIZE_MOD - 1

/-- The `struct RefereeInfo` (without the `REFEREE_DEBUG` members). -/
structure RefereeInfo where
  refcount : Nat
  el_n : Nat
  el_size : Nat
deriving DecidableEq

/-- Modelled from the spec: the type `RefereePtrInfoMap` generated by the
missing `hash.h`.  `keys` is the memory of the key array (all allocated
cells, live or not), `keys_n` the number of live keys (both are read by
`ref_purge`), and `slots` is the pointer-to-record association itself. -/
structure RefereePtrInfoMap where
  keys : List Ptr
  keys_n : Nat
  slots : List (Ptr × RefereeInfo)
deriving DecidableEq

/-- The `struct Referee`.  The three allocator members are kept as addresses;
no implemented function reads them. -/
structure Referee where
  allocator : Ptr
  alloc : Ptr
  free : Ptr
  ptr_infos : RefereePtrInfoMap
deriving DecidableEq

/-! ## The associative container (missing `hash.h`) -/

/-- Record stored for `key` in an association list, if any. -/
def slot_find : List (Ptr × RefereeInfo) → Ptr → Option RefereeInfo
  | [], _ => none
  | (k, v) :: t, key => if k = key then some v else slot_find t key

/-- Overwrite the record stored for `key` (no effect when `key` is absent). -/
def slot_store : List (Ptr × RefereeInfo) → Ptr → RefereeInfo → List (Ptr × RefereeInfo)
  | [], _, _ => []
  | (k, v) :: t, key, val =>
    if k = key then (k, val) :: t else (k, v) :: slot_store t key val

/-- Drop the record stored for `key`. -/
def slot_erase : List (Ptr × RefereeInfo) → Ptr → List (Ptr × RefereeInfo)
  | [], _ => []
  | (k, v) :: t, key => if k = key then slot_erase t key else (k, v) :: slot_erase t key

/-- Write `key` into cell `n` of the key array, growing it by one cell when
`n` is the first cell past the allocated ones. -/
def key_put (keys : List Ptr) (n : Nat) (key : Ptr) : List Ptr :=
  if n < keys.length then keys.set n key else keys ++ [key]

/-- How the map's `remove` rewrites the memory of its key array: from the old
memory, the old `keys_n` and the removed key to the new memory.  The new
`keys_n` is always the old one minus one. -/
abbrev KeyRemoval := List Ptr → Nat → Ptr → List Ptr

/-- Modelled from the spec: `ref__map_ptr` of the missing `hash.h`,
`lookup(key) -> handle|absent`. -/
def ref__map_ptr (m : RefereePtrInfoMap) (key : Ptr) : Option RefereeInfo :=
  slot_find m.slots key

/-- Modelled from the spec: `ref__map_insert` of the missing `hash.h`,
`insert(key, value) -> {inserted | already_existed}`: `1` and no change when
the key exists, `0` and a new record when it does not.  `ok = false` is an
insert that fails (result `-1`, no change), the `default:` case of
`ref_add_n`. -/
def ref__map_insert (ok : Bool) (m : RefereePtrInfoMap) (key : Ptr) (val : RefereeInfo) :
    Int × RefereePtrInfoMap :=
  match slot_find m.slots key with
  | some _ => (1, m)
  | none =>
    if ok then
      (0, { keys := key_put m.keys m.keys_n key
            keys_n := m.keys_n + 1
            slots := m.slots ++ [(key, val)] })
    else (-1, m)

/-- Modelled from the spec: `ref__map_remove` of the missing `hash.h`,
`remove(key)`: drops the record of `key` and lets `rm` rewrite the key array;
a no-op when the key is absent. -/
def ref__map_remove (rm : KeyRemoval) (m : RefereePtrInfoMap) (key : Ptr) : RefereePtrInfoMap :=
  match slot_find m.slots key with
  | none => m
  | some _ =>
    { keys := rm m.keys m.keys_n key
      keys_n := m.keys_n - 1
      slots := slot_erase m.slots key }

/-- Modelled from the spec: a key array whose remove copies the last live key
into the freed cell and leaves every other cell as it was. -/
def keys_swap_last : KeyRemoval := fun keys n key =>
  keys.set ((keys.take n).indexOf key) (keys.getD (n - 1) NULL)

/-- Modelled from the spec: a key array whose remove moves the last live key
into the freed cell and clears the cell it came from. -/
def keys_swap_last_clear : KeyRemoval := fun keys n key =>
  (keys_swap_last keys n key).set (n - 1) NULL

/-- Modelled from the spec: a key array whose remove keeps the order of the
remaining keys, shifting the later live keys down by one cell. -/
def keys_shift_down : KeyRemoval := fun keys n key =>
  (keys.take n).eraseIdx ((keys.take n).indexOf key) ++ keys.drop (n - 1)

/-! ## referee.h -/

/-- Function `ref_info`: the record of `ptr`, or null. -/
def ref_info (ref : Option Referee) (ptr : Ptr) : Option RefereeInfo :=
  match ref with
  | some r => if ptr ≠ NULL then ref__map_ptr r.ptr_infos ptr else none
  | none => none

/-- Function `ref_count`. -/
def ref_count (ref : Option Referee) (ptr : Ptr) : Nat :=
  match ref_info ref ptr with
  | some info => info.refcount
  | none => 0

/-- A store through the handle that `ref_info ref ptr` returned. -/
def ref_store (ref : Option Referee) (ptr : Ptr) (info : RefereeInfo) : Option Referee :=
  match ref with
  | some r =>
    some { r with ptr_infos := { r.ptr_infos with slots := slot_store r.ptr_infos.slots ptr info } }
  | none => none

/-- Function `ref_inc_c`: returned pointer and ledger afterwards. -/
def ref_inc_c (ref : Option Referee) (ptr : Ptr) (c : Nat) : Ptr × Option Referee :=
  match ref_info ref ptr with
  | some info => (ptr, ref_store ref ptr { info with refcount := (info.refcount + c) % SIZE_MOD })
  | none => (NULL, ref)

/-- Function `ref_inc`. -/
def ref_inc (ref : Option Referee) (ptr : Ptr) : Ptr × Option Referee :=
  match ref_info ref ptr with
  | some info => (ptr, ref_store ref ptr { info with refcount := (info.refcount + 1) % SIZE_MOD })
  | none => (NULL, ref)

/-- Function `ref_dec_c`. -/
def ref_dec_c (ref : Option Referee) (ptr : Ptr) (c : Nat) : Ptr × Option Referee :=
  match ref_info ref ptr with
  | some info =>
    if info.refcount ≥ c then
      (ptr, ref_store ref ptr { info with refcount := info.refcount - c })
    else
      (ptr, ref_store ref ptr { info with refcount := 0 })
  | none => (NULL, ref)

/-- Function `ref_dec`. -/
def ref_dec (ref : Option Referee) (ptr : Ptr) : Ptr × Option Referee :=
  match ref_info ref ptr with
  | some info =>
    if info.refcount > 0 then
      (ptr, ref_store ref ptr { info with refcount := info.refcount - 1 })
    else (ptr, ref)
  | none => (NULL, ref)

/-- Function `ref_add_n`.  `ok` tells whether a fresh insert into the map succeeds. -/
def ref_add_n (ok : Bool) (ref : Option Referee) (ptr : Ptr) (el_size el_n init_refs : Nat) :
    Ptr × Option Referee :=
  match ref with
  | none => (NULL, none)
  | some r =>
    if ptr = NULL then (NULL, some r)
    else
      let info : RefereeInfo := { refcount := init_refs, el_n := el_n, el_size := el_size }
      let ins := ref__map_insert ok r.ptr_infos ptr info
      let r1 : Referee := { r with ptr_infos := ins.2 }
      if ins.1 = 0 then (ptr, some r1)
      else if ins.1 = 1 then ref_inc_c (some r1) ptr init_refs
      else (NULL, some r1)

/-- Function `ref_add`. -/
def ref_add (ok : Bool) (ref : Option Referee) (ptr : Ptr) (alloc_size init_refs : Nat) :
    Ptr × Option Referee :=
  ref_add_n ok ref ptr alloc_size 1 init_refs

/-- The ledger after a `ref__map_insert` that stored a fresh record for `p`. -/
def ref_inserted (r : Referee) (p : Ptr) (info : RefereeInfo) : Referee :=
  { r with ptr_infos :=
      { keys := key_put r.ptr_infos.keys r.ptr_infos.keys_n p
        keys_n := r.ptr_infos.keys_n + 1
        slots := r.ptr_infos.slots ++ [(p, info)] } }

/-- The ledger after `ref__map_remove(&ref->ptr_infos, ptr)`. -/
def ref_unmap (rm : KeyRemoval) (r : Referee) (ptr : Ptr) : Referee :=
  { r with ptr_infos := ref__map_remove rm r.ptr_infos ptr }

/-- Function `ref_remove`.  The function dereferences `ref` without a null check, so
there is no result for a null ledger. -/
def ref_remove (rm : KeyRemoval) (ref : Option Referee) (ptr : Ptr) :
    Option (Ptr × Option Referee) :=
  match ref with
  | none => none
  | some r => some (ptr, some (ref_unmap rm r ptr))

/-- Function `ref_new_n`.  `malloc` maps a byte count to the address the allocator
hands out (`NULL` on failure). -/
def ref_new_n (malloc : Nat → Ptr) (ok : Bool) (ref : Option Referee)
    (el_size el_n init_refs : Nat) : Ptr × Option Referee :=
  let ptr := malloc ((el_size * el_n) % SIZE_MOD)
  if ptr ≠ NULL then ref_add_n ok ref ptr el_size el_n init_refs else (ptr, ref)

/-- Function `ref_new`. -/
def ref_new (malloc : Nat → Ptr) (ok : Bool) (ref : Option Referee) (size init_refs : Nat) :
    Ptr × Option Referee :=
  ref_new_n malloc ok ref size 1 init_refs

/-- What a call of `ref_purge` produces: its return value, the pointers it
passed to `free` (in call order) and the ledger afterwards. -/
structure PurgeResult where
  deleted_n : Nat
  freed : List Ptr
  ref : Option Referee
deriving DecidableEq

/-- The `for` loop of `ref_purge`: return value so far, pointers passed to
`free` so far, ledger.  `todo` is `keys_n - i`, where `keys_n` is the value
read once before the first iteration; reading a cell of the key array that
was never allocated gives `NULL`. -/
def ref_purge_loop (rm : KeyRemoval) :
    Nat → Nat → Nat → List Ptr → Referee → Nat × List Ptr × Referee
  | 0, _, deleted_n, freed, r => (deleted_n, freed, r)
  | todo + 1, i, deleted_n, freed, r =>
    let ptr := r.ptr_infos.keys.getD i NULL
    match ref_info (some r) ptr with
    | some info =>
      if info.refcount = 0 then
        ref_purge_loop rm todo (i + 1) ((deleted_n + 1) % SIZE_MOD) (freed ++ [ptr])
          (ref_unmap rm r ptr)
      else ref_purge_loop rm todo (i + 1) deleted_n freed r
    | none => ref_purge_loop rm todo (i + 1) deleted_n freed r

/-- Function `ref_purge`. -/
def ref_purge (rm : KeyRemoval) (ref : Option Referee) : PurgeResult :=
  match ref with
  | none => { deleted_n := REFEREE_INVALID, freed := [], ref := none }
  | some r =>
    let out := ref_purge_loop rm r.ptr_infos.keys_n 0 0 [] r
    { deleted_n := out.1, freed := out.2.1, ref := some out.2.2 }

/-! ## Vocabulary of the specification -/

/-- The record the mapping holds for `p` (none for a null ledger). -/
def record_of (ref : Option Referee) (p : Ptr) : Option RefereeInfo :=
  match ref with
  | some r => ref__map_ptr r.ptr_infos p
  | none => none

/-- A pointer is tracked iff it has an entry in the mapping. -/
def tracked (ref : Option Referee) (p : Ptr) : Prop := record_of ref p ≠ none

instance (ref : Option Referee) (p : Ptr) : Decidable (tracked ref p) := by
  unfold tracked; infer_instance

/-- Number of records in the ledger. -/
def tracked_n (ref : Option Referee) : Nat :=
  match ref with
  | some r => r.ptr_infos.slots.length
  | none => 0

/-- Invariant of the map: keys are unique, the null pointer is not a key, and
`keys_n` is a `size_t`. -/
def map_inv (m : RefereePtrInfoMap) : Prop :=
  (m.slots.map Prod.fst).Nodup ∧ NULL ∉ m.slots.map Prod.fst ∧ m.keys_n < SIZE_MOD

instance (m : RefereePtrInfoMap) : Decidable (map_inv m) := by
  unfold map_inv; infer_instance

/-- Invariant of a ledger (vacuous for the null ledger). -/
def ledger_inv (ref : Option Referee) : Prop :=
  match ref with
  | some r => map_inv r.ptr_infos
  | none => True

instance (ref : Option Referee) : Decidable (ledger_inv ref) := by
  unfold ledger_inv; cases ref <;> infer_instance

/-- Every tracked pointer is listed in the live part of the key array. -/
def keys_cover (m : RefereePtrInfoMap) : Prop :=
  ∀ k ∈ m.slots.map Prod.fst, k ∈ m.keys.take m.keys_n

instance (m : RefereePtrInfoMap) : Decidable (keys_cover m) := by
  unfold keys_cover; infer_instance

/-- Invariant of the loop of `ref_purge` before the iteration with index `i`,
`todo` iterations being left: null is not a key, every tracked pointer is in
a live cell of the key array, and every tracked pointer with refcount zero is
in one of the cells the loop has yet to read. -/
def purge_inv (i todo : Nat) (r : Referee) : Prop :=
  NULL ∉ r.ptr_infos.slots.map Prod.fst
    ∧ (∀ q, slot_find r.ptr_infos.slots q ≠ none →
        ∃ t, t < r.ptr_infos.keys_n ∧ r.ptr_infos.keys[t]? = some q)
    ∧ (∀ q info, slot_find r.ptr_infos.slots q = some info → info.refcount = 0 →
        ∃ t, i ≤ t ∧ t < i + todo ∧ r.ptr_infos.keys[t]? = some q)

/-- The empty ledger (`Referee ref = {0}`). -/
def ref_empty : Referee :=
  { allocator := 0, alloc := 0, free := 0, ptr_infos := { keys := [], keys_n := 0, slots := [] } }

/-- A ledger built from records in insertion order, with a key array that has
no spare cells. -/
def ref_of (s : List (Ptr × RefereeInfo)) : Referee :=
  { allocator := 0, alloc := 0, free := 0,
    ptr_infos := { keys := s.map Prod.fst, keys_n := s.length, slots := s } }

/-! ## Duplication and call sequences -/

/-- What a call of `ref_dup` produces: its return value, the byte counts it
passed to `malloc`, the `memcpy` calls it made (destination, source, byte
count) and the ledger afterwards. -/
structure DupResult where
  result : Ptr
  mallocs : List Nat
  memcpys : List (Ptr × Ptr × Nat)
  ref : Option Referee
deriving DecidableEq

/-- Function `ref_dup`.  The source uses the variables `result` and `bytes_n`
without declaring them: `result0` is the value `result` holds on entry and
`bytes_n` the value of `bytes_n`. -/
def ref_dup (result0 : Ptr) (bytes_n : Nat) (malloc : Nat → Ptr) (ok : Bool)
    (ref : Option Referee) (ptr : Ptr) (init_refs : Nat) : DupResult :=
  match ref_info ref ptr with
  | some info =>
    let out := ref_new_n malloc ok ref info.el_size info.el_n init_refs
    { result := out.1
      mallocs := [(info.el_size * info.el_n) % SIZE_MOD]
      memcpys := [(out.1, ptr, bytes_n)]
      ref := out.2 }
  | none => { result := result0, mallocs := [], memcpys := [], ref := ref }

/-- One call of a ledger operation that can change the ledger, with its
arguments (and, for the allocating ones, the allocator and whether the map
insert succeeds). -/
inductive Call where
  | add_n (ok : Bool) (ptr el_size el_n init_refs : Nat)
  | add (ok : Bool) (ptr alloc_size init_refs : Nat)
  | new_n (malloc : Nat → Ptr) (ok : Bool) (el_size el_n init_refs : Nat)
  | new (malloc : Nat → Ptr) (ok : Bool) (size init_refs : Nat)
  | remove (ptr : Nat)
  | inc (ptr : Nat)
  | inc_c (ptr c : Nat)
  | dec (ptr : Nat)
  | dec_c (ptr c : Nat)
  | purge

/-- The ledger after one call. -/
def call_step (rm : KeyRemoval) (ref : Option Referee) : Call → Option Referee
  | Call.add_n ok ptr el_size el_n init_refs => (ref_add_n ok ref ptr el_size el_n init_refs).2
  | Call.add ok ptr alloc_size init_refs => (ref_add ok ref ptr alloc_size init_refs).2
  | Call.new_n malloc ok el_size el_n init_refs =>
    (ref_new_n malloc ok ref el_size el_n init_refs).2
  | Call.new malloc ok size init_refs => (ref_new malloc ok ref size init_refs).2
  | Call.remove ptr =>
    match ref_remove rm ref ptr with
    | some out => out.2
    | none => ref
  | Call.inc ptr => (ref_inc ref ptr).2
  | Call.inc_c ptr c => (ref_inc_c ref ptr c).2
  | Call.dec ptr => (ref_dec ref ptr).2
  | Call.dec_c ptr c => (ref_dec_c ref ptr c).2
  | Call.purge => (ref_purge rm ref).ref

/-- The ledger after a sequence of calls, first call first. -/
def call_run (rm : KeyRemoval) (ref : Option Referee) : List Call → Option Referee
  | [] => ref
  | c :: cs => call_run rm (call_step rm ref c) cs

/-- The ledger `after` differs from `ref` at most in the refcount of `p`,
whose record before was `info`: the same pointers are tracked, `p` is tracked
with the el_size and el_n of `info`, every other pointer has the record it
had, and the key array and the allocator members are the same. -/
def refcount_only (ref : Option Referee) (p : Ptr) (info : RefereeInfo)
    (after : Option Referee) : Prop :=
  (∀ q, tracked after q ↔ tracked ref q)
    ∧ tracked_n after = tracked_n ref
    ∧ tracked after p
    ∧ (∃ info2, ref_info after p = some info2 ∧ info2.el_size = info.el_size
        ∧ info2.el_n = info.el_n)
    ∧ (∀ q, q ≠ p → ref_info after q = ref_info ref q ∧ record_of after q = record_of ref q)
    ∧ (∃ v, after = ref_store ref p { info with refcount := v })

/-! ## Concrete ledgers used as examples -/

/-- A record for one block of `el_size` bytes with the given refcount. -/
def rec1 (refcount el_size : Nat) : RefereeInfo :=
  { refcount := refcount, el_n := 1, el_size := el_size }

/-- Three tracked pointers, all with refcount zero. -/
def ledger_zero3 : Referee := ref_of [(16, rec1 0 8), (32, rec1 0 8), (48, rec1 0 8)]

/-- Two tracked pointers, both with refcount zero. -/
def ledger_zero2 : Referee := ref_of [(16, rec1 0 8), (32, rec1 0 8)]

/-- Three tracked pointers with refcounts 0, 2 and 0. -/
def ledger_mixed : Referee := ref_of [(16, rec1 0 8), (32, rec1 2 8), (48, rec1 0 8)]

/-- One tracked pointer whose refcount is the largest `size_t`. -/
def ledger_full : Referee := ref_of [(16, rec1 (SIZE_MOD - 1) 8)]

/-! ## Lemmas about the association list -/

theorem slot_find_store (s : List (Ptr × RefereeInfo)) (k : Ptr) (v : RefereeInfo) :
    slot_find (slot_store s k v) k = (slot_find s k).map (fun _ => v) := by
  induction s with
  | nil => rfl
  | cons e t ih =>
    obtain ⟨k0, v0⟩ := e
    by_cases h : k0 = k
    · simp [slot_store, slot_find, h]
    · simp [slot_store, slot_find, h, ih]

theorem slot_find_store_ne (s : List (Ptr × RefereeInfo)) (k q : Ptr) (v : RefereeInfo)
    (hq : q ≠ k) : slot_find (slot_store s k v) q = slot_find s q := by
  induction s with
  | nil => rfl
  | cons e t ih =>
    obtain ⟨k0, v0⟩ := e
    by_cases h : k0 = k
    · subst h
      have h2 : ¬ k0 = q := fun h3 => hq h3.symm
      simp [slot_store, slot_find, h2]
    · by_cases h2 : k0 = q
      · subst h2
        simp [slot_store, slot_find, h]
      · simp [slot_store, slot_find, h, h2, ih]

theorem slot_store_keys (s : List (Ptr × RefereeInfo)) (k : Ptr) (v : RefereeInfo) :
    (slot_store s k v).map Prod.fst = s.map Prod.fst := by
  induction s with
  | nil => rfl
  | cons e t ih =>
    obtain ⟨k0, v0⟩ := e
    by_cases h : k0 = k
    · simp [slot_store, h]
    · simp [slot_store, h, ih]

theorem slot_store_length (s : List (Ptr × RefereeInfo)) (k : Ptr) (v : RefereeInfo) :
    (slot_store s k v).length = s.length := by
  have h := congrArg List.length (slot_store_keys s k v)
  simpa using h

theorem slot_store_same (s : List (Ptr × RefereeInfo)) (k : Ptr) (v : RefereeInfo)
    (h : slot_find s k = some v) : slot_store s k v = s := by
  induction s with
  | nil => rfl
  | cons e t ih =>
    obtain ⟨k0, v0⟩ := e
    by_cases h0 : k0 = k
    · simp [slot_find, h0] at h
      simp [slot_store, h0, h]
    · simp [slot_find, h0] at h
      simp [slot_store, h0, ih h]

theorem slot_store_store (s : List (Ptr × RefereeInfo)) (k : Ptr) (v w : RefereeInfo) :
    slot_store (slot_store s k v) k w = slot_store s k w := by
  induction s with
  | nil => rfl
  | cons e t ih =>
    obtain ⟨k0, v0⟩ := e
    by_cases h0 : k0 = k
    · simp [slot_store, h0]
    · simp [slot_store, h0, ih]

theorem slot_find_none_iff (s : List (Ptr × RefereeInfo)) (k : Ptr) :
    slot_find s k = none ↔ k ∉ s.map Prod.fst := by
  induction s with
  | nil => simp [slot_find]
  | cons e t ih =>
    obtain ⟨k0, v0⟩ := e
    by_cases h : k0 = k
    · simp [slot_find, h]
    · have h2 : ¬ k = k0 := fun h3 => h h3.symm
      simp only [slot_find, h, if_false, ih, List.map_cons, List.mem_cons, h2, false_or]

theorem slot_erase_keys (s : List (Ptr × RefereeInfo)) (k : Ptr) :
    (slot_erase s k).map Prod.fst = (s.map Prod.fst).filter (fun x => decide (x ≠ k)) := by
  induction s with
  | nil => rfl
  | cons e t ih =>
    obtain ⟨k0, v0⟩ := e
    by_cases h : k0 = k
    · simp [slot_erase, List.filter_cons, h, ih]
    · simp [slot_erase, List.filter_cons, h, ih]

theorem slot_find_erase_self (s : List (Ptr × RefereeInfo)) (k : Ptr) :
    slot_find (slot_erase s k) k = none := by
  rw [slot_find_none_iff, slot_erase_keys]
  simp [List.mem_filter]

theorem slot_find_erase_ne (s : List (Ptr × RefereeInfo)) (k q : Ptr) (hq : q ≠ k) :
    slot_find (slot_erase s k) q = slot_find s q := by
  induction s with
  | nil => rfl
  | cons e t ih =>
    obtain ⟨k0, v0⟩ := e
    by_cases h : k0 = k
    · subst h
      have h2 : ¬ k0 = q := fun h3 => hq h3.symm
      simp [slot_erase, slot_find, h2, ih]
    · by_cases h2 : k0 = q
      · subst h2
        simp [slot_erase, slot_find, h]
      · simp [slot_erase, slot_find, h, h2, ih]

theorem slot_erase_absent (s : List (Ptr × RefereeInfo)) (k : Ptr)
    (h : slot_find s k = none) : slot_erase s k = s := by
  induction s with
  | nil => rfl
  | cons e t ih =>
    obtain ⟨k0, v0⟩ := e
    by_cases h0 : k0 = k
    · simp [slot_find, h0] at h
    · simp only [slot_find, h0, if_false] at h
      simp [slot_erase, h0, ih h]

theorem slot_erase_nodup (s : List (Ptr × RefereeInfo)) (k : Ptr)
    (h : (s.map Prod.fst).Nodup) : ((slot_erase s k).map Prod.fst).Nodup := by
  rw [slot_erase_keys]
  exact h.filter _

theorem slot_erase_length (s : List (Ptr × RefereeInfo)) (k : Ptr) (v : RefereeInfo)
    (hn : (s.map Prod.fst).Nodup) (h : slot_find s k = some v) :
    (slot_erase s k).length + 1 = s.length := by
  induction s with
  | nil => simp [slot_find] at h
  | cons e t ih =>
    obtain ⟨k0, v0⟩ := e
    simp only [List.map_cons, List.nodup_cons] at hn
    by_cases h0 : k0 = k
    · subst h0
      have hab : slot_find t k0 = none := (slot_find_none_iff t k0).2 hn.1
      simp [slot_erase, slot_erase_absent t k0 hab]
    · simp only [slot_find, h0, if_false] at h
      simp [slot_erase, h0, ih hn.2 h]

theorem slot_find_append (s : List (Ptr × RefereeInfo)) (k q : Ptr) (v : RefereeInfo) :
    slot_find (s ++ [(k, v)]) q
      = match slot_find s q with
        | some w => some w
        | none => if k = q then some v else none := by
  induction s with
  | nil => simp [slot_find]
  | cons e t ih =>
    obtain ⟨k0, v0⟩ := e
    by_cases h : k0 = q
    · simp [slot_find, h]
    · simp [slot_find, h, ih]

/-! ## Lemmas about the ledger operations -/

theorem ref_info_some_iff (r : Referee) (p : Ptr) (info : RefereeInfo) :
    ref_info (some r) p = some info ↔ p ≠ NULL ∧ slot_find r.ptr_infos.slots p = some info := by
  unfold ref_info ref__map_ptr
  by_cases h : p = NULL
  · simp [h]
  · simp [h]

theorem ref_info_of_ne (r : Referee) (p : Ptr) (h : p ≠ NULL) :
    ref_info (some r) p = slot_find r.ptr_infos.slots p := by
  unfold ref_info ref__map_ptr
  simp [h]

theorem ref_info_null (ref : Option Referee) : ref_info ref NULL = none := by
  cases ref <;> simp [ref_info]

theorem ref_info_congr (r r' : Referee) (q : Ptr)
    (h : slot_find r'.ptr_infos.slots q = slot_find r.ptr_infos.slots q) :
    ref_info (some r') q = ref_info (some r) q := by
  unfold ref_info ref__map_ptr
  by_cases hq : q = NULL
  · simp [hq]
  · simp [hq, h]

theorem map_remove_slots (rm : KeyRemoval) (m : RefereePtrInfoMap) (k : Ptr) :
    (ref__map_remove rm m k).slots = slot_erase m.slots k := by
  unfold ref__map_remove
  cases h : slot_find m.slots k with
  | none => simp [slot_erase_absent m.slots k h]
  | some v => rfl

theorem unmap_slots (rm : KeyRemoval) (r : Referee) (k : Ptr) :
    (ref_unmap rm r k).ptr_infos.slots = slot_erase r.ptr_infos.slots k :=
  map_remove_slots rm r.ptr_infos k

theorem unmap_find_self (rm : KeyRemoval) (r : Referee) (k : Ptr) :
    slot_find (ref_unmap rm r k).ptr_infos.slots k = none := by
  rw [unmap_slots]; exact slot_find_erase_self _ _

theorem unmap_find_ne (rm : KeyRemoval) (r : Referee) (k q : Ptr) (h : q ≠ k) :
    slot_find (ref_unmap rm r k).ptr_infos.slots q = slot_find r.ptr_infos.slots q := by
  rw [unmap_slots]; exact slot_find_erase_ne _ _ _ h

theorem map_remove_find_self (rm : KeyRemoval) (m : RefereePtrInfoMap) (k : Ptr) :
    slot_find (ref__map_remove rm m k).slots k = none := by
  rw [map_remove_slots]; exact slot_find_erase_self _ _

theorem map_remove_find_ne (rm : KeyRemoval) (m : RefereePtrInfoMap) (k q : Ptr) (h : q ≠ k) :
    slot_find (ref__map_remove rm m k).slots q = slot_find m.slots q := by
  rw [map_remove_slots]; exact slot_find_erase_ne _ _ _ h

/-! ## Lemmas about the loop of `ref_purge` -/

/-- Every record after the loop is the record before it, and a record that
disappeared had refcount zero. -/
theorem purge_loop_find (rm : KeyRemoval) (q : Ptr) :
    ∀ (todo i d : Nat) (f : List Ptr) (r : Referee),
      slot_find (ref_purge_loop rm todo i d f r).2.2.ptr_infos.slots q
          = slot_find r.ptr_infos.slots q
        ∨ (slot_find (ref_purge_loop rm todo i d f r).2.2.ptr_infos.slots q = none
            ∧ ∃ info, slot_find r.ptr_infos.slots q = some info ∧ info.refcount = 0) := by
  intro todo
  induction todo with
  | zero => intro i d f r; left; rfl
  | succ n ih =>
    intro i d f r
    simp only [ref_purge_loop]
    split
    · rename_i info hinfo
      split
      · rename_i hz
        have hfind := ((ref_info_some_iff r _ info).1 hinfo).2
        by_cases hq : q = r.ptr_infos.keys.getD i NULL
        · right
          subst hq
          refine ⟨?_, info, hfind, hz⟩
          rcases ih (i + 1) ((d + 1) % SIZE_MOD) (f ++ [r.ptr_infos.keys.getD i NULL])
            (ref_unmap rm r (r.ptr_infos.keys.getD i NULL))
            with h | h
          · rw [h]; exact unmap_find_self rm _ _
          · exact h.1
        · rcases ih (i + 1) ((d + 1) % SIZE_MOD) (f ++ [r.ptr_infos.keys.getD i NULL])
            (ref_unmap rm r (r.ptr_infos.keys.getD i NULL))
            with h | h
          · left
            rw [h]; exact unmap_find_ne rm _ _ _ hq
          · right
            refine ⟨h.1, ?_⟩
            obtain ⟨info2, h2, h3⟩ := h.2
            refine ⟨info2, ?_, h3⟩
            rw [← h2]; exact (unmap_find_ne rm _ _ _ hq).symm
      · exact ih _ _ _ _
    · exact ih _ _ _ _

/-- The loop leaves the allocator members alone. -/
theorem purge_loop_fields (rm : KeyRemoval) :
    ∀ (todo i d : Nat) (f : List Ptr) (r : Referee),
      (ref_purge_loop rm todo i d f r).2.2.allocator = r.allocator
        ∧ (ref_purge_loop rm todo i d f r).2.2.alloc = r.alloc
        ∧ (ref_purge_loop rm todo i d f r).2.2.free = r.free := by
  intro todo
  induction todo with
  | zero => intro i d f r; exact ⟨rfl, rfl, rfl⟩
  | succ n ih =>
    intro i d f r
    simp only [ref_purge_loop]
    split
    · split
      · exact ih _ _ _ _
      · exact ih _ _ _ _
    · exact ih _ _ _ _

/-- The count returned by the loop: one per record removed. -/
theorem purge_loop_count (rm : KeyRemoval) :
    ∀ (todo i d : Nat) (f : List Ptr) (r : Referee),
      (r.ptr_infos.slots.map Prod.fst).Nodup → d + todo < SIZE_MOD →
      ((ref_purge_loop rm todo i d f r).2.2.ptr_infos.slots.map Prod.fst).Nodup
        ∧ (ref_purge_loop rm todo i d f r).1
            + (ref_purge_loop rm todo i d f r).2.2.ptr_infos.slots.length
          = d + r.ptr_infos.slots.length
        ∧ (ref_purge_loop rm todo i d f r).1 + f.length
          = d + (ref_purge_loop rm todo i d f r).2.1.length := by
  intro todo
  induction todo with
  | zero => intro i d f r hn _; exact ⟨hn, rfl, rfl⟩
  | succ n ih =>
    intro i d f r hn hd
    simp only [ref_purge_loop]
    split
    · rename_i info hinfo
      split
      · have hfind := ((ref_info_some_iff r _ info).1 hinfo).2
        have hmod : (d + 1) % SIZE_MOD = d + 1 := Nat.mod_eq_of_lt (by omega)
        have hn2 : ((ref_unmap rm r (r.ptr_infos.keys.getD i NULL)).ptr_infos.slots.map Prod.fst).Nodup := by
          rw [unmap_slots]; exact slot_erase_nodup _ _ hn
        have hlen : (ref_unmap rm r (r.ptr_infos.keys.getD i NULL)).ptr_infos.slots.length + 1
              = r.ptr_infos.slots.length := by
          rw [unmap_slots]; exact slot_erase_length _ _ info hn hfind
        have := ih (i + 1) ((d + 1) % SIZE_MOD) (f ++ [r.ptr_infos.keys.getD i NULL])
          (ref_unmap rm r (r.ptr_infos.keys.getD i NULL))
          hn2 (by rw [hmod]; omega)
        rw [hmod] at this
        rw [hmod]
        refine ⟨this.1, ?_, ?_⟩
        · have h2 := this.2.1
          omega
        · have h3 := this.2.2
          simp only [List.length_append, List.length_singleton] at h3
          omega
      · exact ih _ _ _ _ hn (by omega)
    · exact ih _ _ _ _ hn (by omega)

/-- Only pointers that had a zero-count record are passed to `free`. -/
theorem purge_loop_freed (rm : KeyRemoval) (q : Ptr) :
    ∀ (todo i d : Nat) (f : List Ptr) (r : Referee),
      q ∈ (ref_purge_loop rm todo i d f r).2.1 →
      q ∈ f ∨ ∃ info, slot_find r.ptr_infos.slots q = some info ∧ info.refcount = 0 := by
  intro todo
  induction todo with
  | zero => intro i d f r h; left; exact h
  | succ n ih =>
    intro i d f r
    simp only [ref_purge_loop]
    split
    · rename_i info hinfo
      split
      · rename_i hz
        intro h
        have hfind := ((ref_info_some_iff r _ info).1 hinfo).2
        rcases ih _ _ _ _ h with h1 | h1
        · rcases List.mem_append.1 h1 with h2 | h2
          · left; exact h2
          · right
            have hq : q = r.ptr_infos.keys.getD i NULL := by simpa using h2
            subst hq
            exact ⟨info, hfind, hz⟩
        · right
          obtain ⟨info2, h2, h3⟩ := h1
          by_cases hq : q = r.ptr_infos.keys.getD i NULL
          · subst hq
            rw [unmap_find_self] at h2
            cases h2
          · refine ⟨info2, ?_, h3⟩
            rw [← h2]; exact (unmap_find_ne rm _ _ _ hq).symm
      · exact ih _ _ _ _
    · exact ih _ _ _ _

theorem ref_info_store_self (ref : Option Referee) (p : Ptr) (info v : RefereeInfo)
    (h : ref_info ref p = some info) : ref_info (ref_store ref p v) p = some v := by
  cases ref with
  | none => simp [ref_info] at h
  | some r =>
    obtain ⟨hp, hf⟩ := (ref_info_some_iff r p info).1 h
    show ref_info (some _) p = some v
    rw [ref_info_of_ne _ p hp]
    show slot_find (slot_store r.ptr_infos.slots p v) p = some v
    rw [slot_find_store, hf]; rfl

theorem ref_info_store_ne (ref : Option Referee) (p q : Ptr) (v : RefereeInfo) (hq : q ≠ p) :
    ref_info (ref_store ref p v) q = ref_info ref q := by
  cases ref with
  | none => rfl
  | some r =>
    apply ref_info_congr
    exact slot_find_store_ne _ _ _ _ hq

theorem ref_count_of_info (ref : Option Referee) (p : Ptr) (info : RefereeInfo)
    (h : ref_info ref p = some info) : ref_count ref p = info.refcount := by
  unfold ref_count; rw [h]

theorem tracked_n_store (ref : Option Referee) (p : Ptr) (v : RefereeInfo) :
    tracked_n (ref_store ref p v) = tracked_n ref := by
  cases ref with
  | none => rfl
  | some r => exact slot_store_length _ _ _

theorem not_tracked_iff (r : Referee) (p : Ptr) :
    ¬ tracked (some r) p ↔ slot_find r.ptr_infos.slots p = none := by
  unfold tracked record_of ref__map_ptr
  simp

theorem ref_info_none_of_not_tracked (ref : Option Referee) (p : Ptr) (h : ¬ tracked ref p) :
    ref_info ref p = none := by
  cases ref with
  | none => rfl
  | some r =>
    have h2 := (not_tracked_iff r p).1 h
    unfold ref_info ref__map_ptr
    by_cases hp : p = NULL
    · simp [hp]
    · simp [hp, h2]

theorem ref_inc_c_eq (ref : Option Referee) (p : Ptr) (info : RefereeInfo) (c : Nat)
    (h : ref_info ref p = some info) :
    ref_inc_c ref p c
      = (p, ref_store ref p { info with refcount := (info.refcount + c) % SIZE_MOD }) := by
  unfold ref_inc_c; rw [h]

theorem ref_inc_eq (ref : Option Referee) (p : Ptr) (info : RefereeInfo)
    (h : ref_info ref p = some info) :
    ref_inc ref p
      = (p, ref_store ref p { info with refcount := (info.refcount + 1) % SIZE_MOD }) := by
  unfold ref_inc; rw [h]

theorem ref_dec_c_eq (ref : Option Referee) (p : Ptr) (info : RefereeInfo) (c : Nat)
    (h : ref_info ref p = some info) :
    ref_dec_c ref p c
      = if info.refcount ≥ c then
          (p, ref_store ref p { info with refcount := info.refcount - c })
        else (p, ref_store ref p { info with refcount := 0 }) := by
  unfold ref_dec_c; rw [h]

theorem ref_dec_eq (ref : Option Referee) (p : Ptr) (info : RefereeInfo)
    (h : ref_info ref p = some info) :
    ref_dec ref p
      = if info.refcount > 0 then
          (p, ref_store ref p { info with refcount := info.refcount - 1 })
        else (p, ref) := by
  unfold ref_dec; rw [h]

/-- The count after `ref_dec_c` on a tracked pointer. -/
theorem ref_dec_c_count (ref : Option Referee) (p : Ptr) (info : RefereeInfo) (c : Nat)
    (h : ref_info ref p = some info) :
    (ref_dec_c ref p c).1 = p
      ∧ ref_count (ref_dec_c ref p c).2 p
        = if c ≤ info.refcount then info.refcount - c else 0 := by
  rw [ref_dec_c_eq ref p info c h]
  by_cases hle : c ≤ info.refcount
  · rw [if_pos hle, if_pos hle]
    exact ⟨rfl, ref_count_of_info _ _ _ (ref_info_store_self ref p info _ h)⟩
  · rw [if_neg hle, if_neg hle]
    exact ⟨rfl, ref_count_of_info _ _ _ (ref_info_store_self ref p info _ h)⟩

/-- The count after `ref_dec` on a tracked pointer. -/
theorem ref_dec_count (ref : Option Referee) (p : Ptr) (info : RefereeInfo)
    (h : ref_info ref p = some info) :
    (ref_dec ref p).1 = p
      ∧ ref_count (ref_dec ref p).2 p = if 0 < info.refcount then info.refcount - 1 else 0 := by
  rw [ref_dec_eq ref p info h]
  by_cases hpos : 0 < info.refcount
  · rw [if_pos hpos, if_pos hpos]
    exact ⟨rfl, ref_count_of_info _ _ _ (ref_info_store_self ref p info _ h)⟩
  · rw [if_neg hpos, if_neg hpos]
    refine ⟨rfl, ?_⟩
    rw [ref_count_of_info _ _ _ h]; omega

/-- The count after `ref_inc_c` on a tracked pointer. -/
theorem ref_inc_c_count (ref : Option Referee) (p : Ptr) (info : RefereeInfo) (c : Nat)
    (h : ref_info ref p = some info) :
    (ref_inc_c ref p c).1 = p
      ∧ ref_info (ref_inc_c ref p c).2 p
        = some { info with refcount := (info.refcount + c) % SIZE_MOD }
      ∧ ref_count (ref_inc_c ref p c).2 p = (info.refcount + c) % SIZE_MOD := by
  rw [ref_inc_c_eq ref p info c h]
  have h2 := ref_info_store_self ref p info
    { info with refcount := (info.refcount + c) % SIZE_MOD } h
  exact ⟨rfl, h2, ref_count_of_info _ _ _ h2⟩

/-- The count after `ref_inc` on a tracked pointer. -/
theorem ref_inc_count (ref : Option Referee) (p : Ptr) (info : RefereeInfo)
    (h : ref_info ref p = some info) :
    (ref_inc ref p).1 = p
      ∧ ref_info (ref_inc ref p).2 p
        = some { info with refcount := (info.refcount + 1) % SIZE_MOD }
      ∧ ref_count (ref_inc ref p).2 p = (info.refcount + 1) % SIZE_MOD := by
  rw [ref_inc_eq ref p info h]
  have h2 := ref_info_store_self ref p info
    { info with refcount := (info.refcount + 1) % SIZE_MOD } h
  exact ⟨rfl, h2, ref_count_of_info _ _ _ h2⟩

/-- Re-adding a tracked pointer runs `ref_inc_c`. -/
theorem ref_add_n_tracked (ok : Bool) (ref : Option Referee) (p : Ptr) (info : RefereeInfo)
    (el_size el_n init_refs : Nat) (h : ref_info ref p = some info) :
    ref_add_n ok ref p el_size el_n init_refs = ref_inc_c ref p init_refs := by
  cases ref with
  | none => simp [ref_info] at h
  | some r =>
    obtain ⟨hp, hf⟩ := (ref_info_some_iff r p info).1 h
    simp only [ref_add_n, if_neg hp, ref__map_insert, hf]
    rfl

/-- Adding an untracked non-null pointer inserts a fresh record. -/
theorem ref_add_n_fresh (r : Referee) (p : Ptr) (el_size el_n init_refs : Nat)
    (hp : p ≠ NULL) (hf : slot_find r.ptr_infos.slots p = none) :
    ref_add_n true (some r) p el_size el_n init_refs
      = (p, some (ref_inserted r p
          { refcount := init_refs, el_n := el_n, el_size := el_size })) := by
  simp only [ref_add_n, if_neg hp, ref__map_insert, hf]
  rfl

theorem unmap_inv (rm : KeyRemoval) (r : Referee) (k : Ptr) (h : map_inv r.ptr_infos) :
    map_inv (ref_unmap rm r k).ptr_infos := by
  obtain ⟨hn, h0, hk⟩ := h
  refine ⟨?_, ?_, ?_⟩
  · rw [unmap_slots]; exact slot_erase_nodup _ _ hn
  · rw [unmap_slots, slot_erase_keys]
    intro hmem
    exact h0 (List.mem_of_mem_filter hmem)
  · show (ref__map_remove rm r.ptr_infos k).keys_n < SIZE_MOD
    unfold ref__map_remove
    split
    · exact hk
    · show r.ptr_infos.keys_n - 1 < SIZE_MOD
      omega

/-! ## The loop of `ref_purge` over a key array that copies the last key -/

/-- A key found in a live cell is found by `indexOf` in a live cell. -/
theorem live_index (keys : List Ptr) (k : Nat) (ptr : Ptr) (t0 : Nat) (ht0 : t0 < k)
    (hk : keys[t0]? = some ptr) :
    (keys.take k).indexOf ptr < k ∧ (keys.take k).indexOf ptr < keys.length
      ∧ keys[(keys.take k).indexOf ptr]? = some ptr := by
  have hmem : ptr ∈ keys.take k :=
    List.mem_iff_getElem?.2 ⟨t0, by rw [List.getElem?_take, if_pos ht0]; exact hk⟩
  have hj := List.getElem?_indexOf hmem
  rw [List.getElem?_take] at hj
  by_cases hlt : (keys.take k).indexOf ptr < k
  · rw [if_pos hlt] at hj
    obtain ⟨hlen, _⟩ := List.getElem?_eq_some.1 hj
    exact ⟨hlt, hlen, hj⟩
  · rw [if_neg hlt] at hj
    cases hj

theorem getD_of_getElem_some (keys : List Ptr) (t : Nat) (q : Ptr) (h : keys[t]? = some q) :
    keys.getD t NULL = q := by
  rw [List.getD_eq_getElem?_getD, h]; rfl

/-- The ledger after removing a tracked key from a key array that copies the
last key. -/
theorem unmap_swap_last (r : Referee) (ptr : Ptr) (info : RefereeInfo)
    (h : slot_find r.ptr_infos.slots ptr = some info) :
    (ref_unmap keys_swap_last r ptr).ptr_infos
      = { keys := r.ptr_infos.keys.set
            ((r.ptr_infos.keys.take r.ptr_infos.keys_n).indexOf ptr)
            (r.ptr_infos.keys.getD (r.ptr_infos.keys_n - 1) NULL)
          keys_n := r.ptr_infos.keys_n - 1
          slots := slot_erase r.ptr_infos.slots ptr } := by
  show ref__map_remove keys_swap_last r.ptr_infos ptr = _
  unfold ref__map_remove
  rw [h]
  rfl

/-- An iteration that removes nothing keeps the invariant. -/
theorem purge_inv_keep (i n : Nat) (r : Referee) (hinv : purge_inv i (n + 1) r)
    (hskip : ∀ info, ref_info (some r) (r.ptr_infos.keys.getD i NULL) = some info →
      info.refcount ≠ 0) :
    purge_inv (i + 1) n r := by
  obtain ⟨h0, h1, h2⟩ := hinv
  refine ⟨h0, h1, ?_⟩
  intro q info hq hz
  obtain ⟨t, hit, htn, hkt⟩ := h2 q info hq hz
  refine ⟨t, ?_, by omega, hkt⟩
  by_contra hlt
  have hti : t = i := by omega
  subst hti
  have hptr := getD_of_getElem_some _ _ _ hkt
  have hqn : q ≠ NULL := by
    intro hqn
    apply h0
    rw [← hqn]
    have : slot_find r.ptr_infos.slots q ≠ none := by rw [hq]; simp
    rw [Ne, slot_find_none_iff] at this
    exact not_not.1 this
  have hinfo : ref_info (some r) (r.ptr_infos.keys.getD t NULL) = some info := by
    rw [hptr]
    exact (ref_info_some_iff r q info).2 ⟨hqn, hq⟩
  exact hskip info hinfo hz

/-- Removing a tracked key from a key array that copies the last key leaves
every cell alone that did not hold the removed key. -/
theorem unmap_swap_last_cell (r : Referee) (ptr : Ptr) (info0 : RefereeInfo)
    (hfind : slot_find r.ptr_infos.slots ptr = some info0)
    (h1 : ∀ q, slot_find r.ptr_infos.slots q ≠ none →
      ∃ t, t < r.ptr_infos.keys_n ∧ r.ptr_infos.keys[t]? = some q)
    (t : Nat) (q : Ptr) (hq : q ≠ ptr) (hkt : r.ptr_infos.keys[t]? = some q) :
    (ref_unmap keys_swap_last r ptr).ptr_infos.keys[t]? = some q := by
  obtain ⟨t0, ht0, hkt0⟩ := h1 ptr (by rw [hfind]; simp)
  obtain ⟨_, _, hj⟩ := live_index r.ptr_infos.keys r.ptr_infos.keys_n ptr t0 ht0 hkt0
  have htj : (r.ptr_infos.keys.take r.ptr_infos.keys_n).indexOf ptr ≠ t := by
    intro heq
    rw [heq, hkt] at hj
    exact hq (Option.some.inj hj)
  rw [unmap_swap_last r ptr info0 hfind]
  show (r.ptr_infos.keys.set _ _)[t]? = some q
  rw [List.getElem?_set_ne htj]
  exact hkt

/-- Removing a tracked key from a key array that copies the last key keeps
every other tracked pointer in a live cell. -/
theorem unmap_swap_last_live (r : Referee) (ptr : Ptr) (info0 : RefereeInfo)
    (hfind : slot_find r.ptr_infos.slots ptr = some info0)
    (h1 : ∀ q, slot_find r.ptr_infos.slots q ≠ none →
      ∃ t, t < r.ptr_infos.keys_n ∧ r.ptr_infos.keys[t]? = some q)
    (q : Ptr) (hq : slot_find (ref_unmap keys_swap_last r ptr).ptr_infos.slots q ≠ none) :
    ∃ t, t < (ref_unmap keys_swap_last r ptr).ptr_infos.keys_n
      ∧ (ref_unmap keys_swap_last r ptr).ptr_infos.keys[t]? = some q := by
  obtain ⟨t0, ht0, hkt0⟩ := h1 ptr (by rw [hfind]; simp)
  obtain ⟨hjk, hjlen, hj⟩ := live_index r.ptr_infos.keys r.ptr_infos.keys_n ptr t0 ht0 hkt0
  have hqp : q ≠ ptr := by
    intro heq
    apply hq
    rw [heq]
    exact unmap_find_self _ _ _
  have hq2 := hq
  rw [unmap_find_ne _ _ _ _ hqp] at hq2
  obtain ⟨t, ht, hkt⟩ := h1 q hq2
  have htj : (r.ptr_infos.keys.take r.ptr_infos.keys_n).indexOf ptr ≠ t := by
    intro heq
    rw [heq, hkt] at hj
    exact hqp (Option.some.inj hj)
  by_cases hlast : t < r.ptr_infos.keys_n - 1
  · refine ⟨t, ?_, unmap_swap_last_cell r ptr info0 hfind h1 t q hqp hkt⟩
    rw [unmap_swap_last r ptr info0 hfind]
    exact hlast
  · have hteq : t = r.ptr_infos.keys_n - 1 := by omega
    rw [unmap_swap_last r ptr info0 hfind]
    refine ⟨(r.ptr_infos.keys.take r.ptr_infos.keys_n).indexOf ptr, ?_, ?_⟩
    · show (r.ptr_infos.keys.take r.ptr_infos.keys_n).indexOf ptr < r.ptr_infos.keys_n - 1
      omega
    · show (r.ptr_infos.keys.set _ _)[_]? = some q
      rw [List.getElem?_set_self hjlen, ← hteq, getD_of_getElem_some _ _ _ hkt]

/-- An iteration that removes the key it read keeps the invariant, when the
key array copies the last key into the freed cell. -/
theorem purge_inv_remove (i n : Nat) (r : Referee) (info0 : RefereeInfo)
    (hinv : purge_inv i (n + 1) r)
    (hinfo : ref_info (some r) (r.ptr_infos.keys.getD i NULL) = some info0) :
    purge_inv (i + 1) n (ref_unmap keys_swap_last r (r.ptr_infos.keys.getD i NULL)) := by
  obtain ⟨h0, h1, h2⟩ := hinv
  obtain ⟨_, hfind⟩ := (ref_info_some_iff r _ info0).1 hinfo
  refine ⟨?_, unmap_swap_last_live r _ info0 hfind h1, ?_⟩
  · rw [unmap_slots, slot_erase_keys]
    intro hmem
    exact h0 (List.mem_of_mem_filter hmem)
  · intro q info hq hz
    have hqp : q ≠ r.ptr_infos.keys.getD i NULL := by
      intro heq
      rw [heq, unmap_find_self] at hq
      cases hq
    rw [unmap_find_ne _ _ _ _ hqp] at hq
    obtain ⟨t, hit, htn, hkt⟩ := h2 q info hq hz
    have hti : t ≠ i := by
      intro heq
      subst heq
      exact hqp (getD_of_getElem_some _ _ _ hkt).symm
    exact ⟨t, by omega, by omega, unmap_swap_last_cell r _ info0 hfind h1 t q hqp hkt⟩

/-- With a key array that copies the last key, no record with refcount zero
is left when the loop ends. -/
theorem purge_loop_complete :
    ∀ (todo i d : Nat) (f : List Ptr) (r : Referee), purge_inv i todo r →
      ∀ q info,
        slot_find (ref_purge_loop keys_swap_last todo i d f r).2.2.ptr_infos.slots q
          = some info → info.refcount ≠ 0 := by
  intro todo
  induction todo with
  | zero =>
    intro i d f r hinv q info hq hz
    obtain ⟨t, h1, h2, _⟩ := hinv.2.2 q info hq hz
    omega
  | succ n ih =>
    intro i d f r hinv
    simp only [ref_purge_loop]
    split
    · rename_i info0 hinfo
      split
      · exact ih _ _ _ _ (purge_inv_remove i n r info0 hinv hinfo)
      · rename_i hnz
        apply ih _ _ _ _ (purge_inv_keep i n r hinv ?_)
        intro info1 h1
        rw [hinfo] at h1
        cases h1
        exact hnz
    · rename_i hnone
      apply ih _ _ _ _ (purge_inv_keep i n r hinv ?_)
      intro info1 h1
      rw [hnone] at h1
      cases h1

/-- A ledger whose key array lists every tracked pointer satisfies the loop
invariant at the start of `ref_purge`. -/
theorem purge_inv_start (r : Referee) (h0 : NULL ∉ r.ptr_infos.slots.map Prod.fst)
    (hcov : keys_cover r.ptr_infos) : purge_inv 0 r.ptr_infos.keys_n r := by
  have hlive : ∀ q, slot_find r.ptr_infos.slots q ≠ none →
      ∃ t, t < r.ptr_infos.keys_n ∧ r.ptr_infos.keys[t]? = some q := by
    intro q hq
    rw [Ne, slot_find_none_iff] at hq
    obtain ⟨t, ht⟩ := List.mem_iff_getElem?.1 (hcov q (not_not.1 hq))
    rw [List.getElem?_take] at ht
    by_cases hlt : t < r.ptr_infos.keys_n
    · rw [if_pos hlt] at ht
      exact ⟨t, hlt, ht⟩
    · rw [if_neg hlt] at ht
      cases ht
  refine ⟨h0, hlive, ?_⟩
  intro q info hq _
  obtain ⟨t, ht, hkt⟩ := hlive q (by rw [hq]; simp)
  exact ⟨t, by omega, by omega, hkt⟩

/-! ## The invariants hold for the ledgers the operations build -/

theorem mem_take_iff (keys : List Ptr) (n : Nat) (q : Ptr) :
    q ∈ keys.take n ↔ ∃ t, t < n ∧ keys[t]? = some q := by
  rw [List.mem_iff_getElem?]
  constructor
  · rintro ⟨t, ht⟩
    rw [List.getElem?_take] at ht
    by_cases hlt : t < n
    · rw [if_pos hlt] at ht
      exact ⟨t, hlt, ht⟩
    · rw [if_neg hlt] at ht
      cases ht
  · rintro ⟨t, hlt, ht⟩
    exact ⟨t, by rw [List.getElem?_take, if_pos hlt]; exact ht⟩

theorem keys_cover_iff (m : RefereePtrInfoMap) :
    keys_cover m ↔ ∀ q, slot_find m.slots q ≠ none → ∃ t, t < m.keys_n ∧ m.keys[t]? = some q := by
  unfold keys_cover
  constructor
  · intro h q hq
    rw [Ne, slot_find_none_iff] at hq
    exact (mem_take_iff _ _ _).1 (h q (not_not.1 hq))
  · intro h q hq
    apply (mem_take_iff _ _ _).2
    apply h
    rw [Ne, slot_find_none_iff]
    exact not_not.2 hq

theorem inv_empty : ledger_inv (some ref_empty) ∧ keys_cover ref_empty.ptr_infos := by
  decide

theorem inv_store (ref : Option Referee) (p : Ptr) (v : RefereeInfo) (h : ledger_inv ref) :
    ledger_inv (ref_store ref p v) := by
  cases ref with
  | none => trivial
  | some r =>
    obtain ⟨hn, h0, hk⟩ := h
    refine ⟨?_, ?_, hk⟩
    · show ((slot_store r.ptr_infos.slots p v).map Prod.fst).Nodup
      rw [slot_store_keys]; exact hn
    · show NULL ∉ (slot_store r.ptr_infos.slots p v).map Prod.fst
      rw [slot_store_keys]; exact h0

theorem cover_store (r : Referee) (p : Ptr) (v : RefereeInfo) (h : keys_cover r.ptr_infos) :
    ∀ r2, ref_store (some r) p v = some r2 → keys_cover r2.ptr_infos := by
  intro r2 h2
  cases h2
  intro k hk
  have hk2 : k ∈ (slot_store r.ptr_infos.slots p v).map Prod.fst := hk
  rw [slot_store_keys] at hk2
  exact h k hk2

theorem inv_inserted (r : Referee) (p : Ptr) (info : RefereeInfo)
    (h : ledger_inv (some r)) (hp : p ≠ NULL) (hf : slot_find r.ptr_infos.slots p = none)
    (hroom : r.ptr_infos.keys_n + 1 < SIZE_MOD) :
    ledger_inv (some (ref_inserted r p info)) := by
  obtain ⟨hn, h0, _⟩ := h
  have hnot := (slot_find_none_iff _ _).1 hf
  refine ⟨?_, ?_, hroom⟩
  · show ((r.ptr_infos.slots ++ [(p, info)]).map Prod.fst).Nodup
    rw [List.map_append, List.nodup_append]
    refine ⟨hn, by simp, ?_⟩
    intro a ha hb
    have : a = p := by simpa using hb
    subst this
    exact hnot ha
  · show NULL ∉ (r.ptr_infos.slots ++ [(p, info)]).map Prod.fst
    rw [List.map_append, List.mem_append]
    rintro (h1 | h1)
    · exact h0 h1
    · have : NULL = p := by simpa using h1
      exact hp this.symm

theorem cover_inserted (r : Referee) (p : Ptr) (info : RefereeInfo)
    (h : keys_cover r.ptr_infos) : keys_cover (ref_inserted r p info).ptr_infos := by
  intro k hk
  have hk2 : k ∈ (r.ptr_infos.slots ++ [(p, info)]).map Prod.fst := hk
  show k ∈ (key_put r.ptr_infos.keys r.ptr_infos.keys_n p).take (r.ptr_infos.keys_n + 1)
  rw [mem_take_iff]
  rw [List.map_append, List.mem_append] at hk2
  rcases hk2 with h1 | h1
  · obtain ⟨t, ht, hkt⟩ := (mem_take_iff _ _ _).1 (h k h1)
    refine ⟨t, by omega, ?_⟩
    unfold key_put
    split
    · rw [List.getElem?_set_ne (by omega)]; exact hkt
    · obtain ⟨hlen, _⟩ := List.getElem?_eq_some.1 hkt
      rw [List.getElem?_append_left hlen]; exact hkt
  · have hkp : k = p := by simpa using h1
    subst hkp
    unfold key_put
    split
    · rename_i hlt
      exact ⟨r.ptr_infos.keys_n, by omega, List.getElem?_set_self hlt⟩
    · rename_i hge
      refine ⟨r.ptr_infos.keys.length, by omega, ?_⟩
      simp

theorem cover_unmap_swap_last (r : Referee) (k : Ptr) (h : keys_cover r.ptr_infos) :
    keys_cover (ref_unmap keys_swap_last r k).ptr_infos := by
  cases hf : slot_find r.ptr_infos.slots k with
  | none =>
    have : (ref_unmap keys_swap_last r k).ptr_infos = r.ptr_infos := by
      show ref__map_remove keys_swap_last r.ptr_infos k = _
      unfold ref__map_remove
      rw [hf]
    rw [this]; exact h
  | some info0 =>
    rw [keys_cover_iff]
    exact unmap_swap_last_live r k info0 hf ((keys_cover_iff _).1 h)

theorem inv_purge_loop (rm : KeyRemoval) :
    ∀ (todo i d : Nat) (f : List Ptr) (r : Referee), map_inv r.ptr_infos →
      map_inv (ref_purge_loop rm todo i d f r).2.2.ptr_infos := by
  intro todo
  induction todo with
  | zero => intro i d f r h; exact h
  | succ n ih =>
    intro i d f r h
    simp only [ref_purge_loop]
    split
    · split
      · exact ih _ _ _ _ (unmap_inv rm r _ h)
      · exact ih _ _ _ _ h
    · exact ih _ _ _ _ h

theorem cover_purge_loop :
    ∀ (todo i d : Nat) (f : List Ptr) (r : Referee), keys_cover r.ptr_infos →
      keys_cover (ref_purge_loop keys_swap_last todo i d f r).2.2.ptr_infos := by
  intro todo
  induction todo with
  | zero => intro i d f r h; exact h
  | succ n ih =>
    intro i d f r h
    simp only [ref_purge_loop]
    split
    · split
      · exact ih _ _ _ _ (cover_unmap_swap_last r _ h)
      · exact ih _ _ _ _ h
    · exact ih _ _ _ _ h

/-! ## Lemmas for stores, double removal and call sequences -/

theorem record_of_store_ne (ref : Option Referee) (p q : Ptr) (v : RefereeInfo) (hq : q ≠ p) :
    record_of (ref_store ref p v) q = record_of ref q := by
  cases ref with
  | none => rfl
  | some r => exact slot_find_store_ne _ _ _ _ hq

theorem tracked_store (ref : Option Referee) (p q : Ptr) (v : RefereeInfo) :
    tracked (ref_store ref p v) q ↔ tracked ref q := by
  cases ref with
  | none => exact Iff.rfl
  | some r =>
    unfold tracked
    show slot_find (slot_store r.ptr_infos.slots p v) q ≠ none ↔ slot_find r.ptr_infos.slots q ≠ none
    rw [Ne, Ne, slot_find_none_iff, slot_find_none_iff, slot_store_keys]

theorem ref_store_same (ref : Option Referee) (p : Ptr) (info : RefereeInfo)
    (h : ref_info ref p = some info) : ref_store ref p info = ref := by
  cases ref with
  | none => rfl
  | some r =>
    obtain ⟨_, hf⟩ := (ref_info_some_iff r p info).1 h
    show some _ = some r
    have hs := slot_store_same r.ptr_infos.slots p info hf
    simp only [hs]

theorem ref_store_store (ref : Option Referee) (p : Ptr) (v w : RefereeInfo) :
    ref_store (ref_store ref p v) p w = ref_store ref p w := by
  cases ref with
  | none => rfl
  | some r =>
    show some _ = some _
    simp only [slot_store_store]

theorem info_with_refcount (info : RefereeInfo) (v : Nat) (h : v = info.refcount) :
    ({ info with refcount := v } : RefereeInfo) = info := by
  subst h
  rfl

/-- A store through the handle of a tracked pointer that keeps el_size and
el_n changes nothing but that pointer's refcount. -/
theorem refcount_only_store (ref : Option Referee) (p : Ptr) (info : RefereeInfo) (v : Nat)
    (h : ref_info ref p = some info) :
    refcount_only ref p info (ref_store ref p { info with refcount := v }) := by
  have hself := ref_info_store_self ref p info { info with refcount := v } h
  refine ⟨fun q => tracked_store ref p q _, tracked_n_store ref p _, ?_, ⟨_, hself, rfl, rfl⟩,
    ?_, ⟨v, rfl⟩⟩
  · rw [tracked_store]
    cases ref with
    | none => simp [ref_info] at h
    | some r =>
      obtain ⟨_, hf⟩ := (ref_info_some_iff r p info).1 h
      show slot_find r.ptr_infos.slots p ≠ none
      rw [hf]; simp
  · intro q hq
    exact ⟨ref_info_store_ne ref p q _ hq, record_of_store_ne ref p q _ hq⟩

/-- Removing a key that has no record gives back the same ledger. -/
theorem unmap_absent (rm : KeyRemoval) (r : Referee) (k : Ptr)
    (h : slot_find r.ptr_infos.slots k = none) : ref_unmap rm r k = r := by
  have : ref__map_remove rm r.ptr_infos k = r.ptr_infos := by
    unfold ref__map_remove
    rw [h]
  unfold ref_unmap
  rw [this]

/-! ## The null pointer is never given a record -/

/-- The mapping holds no record for the null pointer. -/
theorem null_free_store (ref : Option Referee) (p : Ptr) (v : RefereeInfo)
    (h : record_of ref NULL = none) : record_of (ref_store ref p v) NULL = none := by
  cases ref with
  | none => rfl
  | some r =>
    have h2 : slot_find r.ptr_infos.slots NULL = none := h
    show slot_find (slot_store r.ptr_infos.slots p v) NULL = none
    rw [slot_find_none_iff, slot_store_keys, ← slot_find_none_iff]
    exact h2

theorem null_free_inc_c (ref : Option Referee) (p : Ptr) (c : Nat)
    (h : record_of ref NULL = none) : record_of (ref_inc_c ref p c).2 NULL = none := by
  unfold ref_inc_c
  split
  · exact null_free_store ref p _ h
  · exact h

theorem null_free_inc (ref : Option Referee) (p : Ptr)
    (h : record_of ref NULL = none) : record_of (ref_inc ref p).2 NULL = none := by
  unfold ref_inc
  split
  · exact null_free_store ref p _ h
  · exact h

theorem null_free_dec_c (ref : Option Referee) (p : Ptr) (c : Nat)
    (h : record_of ref NULL = none) : record_of (ref_dec_c ref p c).2 NULL = none := by
  unfold ref_dec_c
  split
  · split
    · exact null_free_store ref p _ h
    · exact null_free_store ref p _ h
  · exact h

theorem null_free_dec (ref : Option Referee) (p : Ptr)
    (h : record_of ref NULL = none) : record_of (ref_dec ref p).2 NULL = none := by
  unfold ref_dec
  split
  · split
    · exact null_free_store ref p _ h
    · exact h
  · exact h

theorem null_free_add_n (ok : Bool) (ref : Option Referee) (p el_size el_n init_refs : Nat)
    (h : record_of ref NULL = none) :
    record_of (ref_add_n ok ref p el_size el_n init_refs).2 NULL = none := by
  cases ref with
  | none => rfl
  | some r =>
    have h2 : slot_find r.ptr_infos.slots NULL = none := h
    by_cases hp : p = NULL
    · simp only [ref_add_n, if_pos hp]
      exact h
    · cases hf : slot_find r.ptr_infos.slots p with
      | some info =>
        have hi : ref_info (some r) p = some info := (ref_info_some_iff r p info).2 ⟨hp, hf⟩
        rw [ref_add_n_tracked ok (some r) p info el_size el_n init_refs hi]
        exact null_free_inc_c (some r) p init_refs h
      | none =>
        cases ok with
        | true =>
          rw [ref_add_n_fresh r p el_size el_n init_refs hp hf]
          show slot_find (r.ptr_infos.slots ++ [(p, _)]) NULL = none
          rw [slot_find_append, h2]
          simp [hp]
        | false =>
          simp only [ref_add_n, if_neg hp, ref__map_insert, hf]
          exact h

theorem null_free_new_n (malloc : Nat → Ptr) (ok : Bool) (ref : Option Referee)
    (el_size el_n init_refs : Nat) (h : record_of ref NULL = none) :
    record_of (ref_new_n malloc ok ref el_size el_n init_refs).2 NULL = none := by
  unfold ref_new_n
  simp only []
  split
  · exact null_free_add_n ok ref _ el_size el_n init_refs h
  · exact h

theorem null_free_unmap (rm : KeyRemoval) (r : Referee) (k : Ptr)
    (h : slot_find r.ptr_infos.slots NULL = none) :
    slot_find (ref_unmap rm r k).ptr_infos.slots NULL = none := by
  rw [unmap_slots, slot_find_none_iff, slot_erase_keys]
  intro hmem
  exact (slot_find_none_iff _ _).1 h (List.mem_of_mem_filter hmem)

theorem null_free_purge (rm : KeyRemoval) (ref : Option Referee)
    (h : record_of ref NULL = none) : record_of (ref_purge rm ref).ref NULL = none := by
  cases ref with
  | none => rfl
  | some r =>
    have h2 : slot_find r.ptr_infos.slots NULL = none := h
    show slot_find (ref_purge_loop rm r.ptr_infos.keys_n 0 0 [] r).2.2.ptr_infos.slots NULL = none
    rcases purge_loop_find rm NULL r.ptr_infos.keys_n 0 0 [] r with h1 | h1
    · rw [h1]; exact h2
    · exact h1.1

theorem null_free_step (rm : KeyRemoval) (ref : Option Referee) (c : Call)
    (h : record_of ref NULL = none) : record_of (call_step rm ref c) NULL = none := by
  cases c with
  | add_n ok ptr el_size el_n init_refs => exact null_free_add_n ok ref ptr el_size el_n init_refs h
  | add ok ptr alloc_size init_refs => exact null_free_add_n ok ref ptr alloc_size 1 init_refs h
  | new_n malloc ok el_size el_n init_refs =>
    exact null_free_new_n malloc ok ref el_size el_n init_refs h
  | new malloc ok size init_refs => exact null_free_new_n malloc ok ref size 1 init_refs h
  | remove ptr =>
    cases ref with
    | none => exact h
    | some r => exact null_free_unmap rm r ptr h
  | inc ptr => exact null_free_inc ref ptr h
  | inc_c ptr c => exact null_free_inc_c ref ptr c h
  | dec ptr => exact null_free_dec ref ptr h
  | dec_c ptr c => exact null_free_dec_c ref ptr c h
  | purge => exact null_free_purge rm ref h

theorem null_free_run (rm : KeyRemoval) (calls : List Call) :
    ∀ ref : Option Referee, record_of ref NULL = none →
      record_of (call_run rm ref calls) NULL = none := by
  induction calls with
  | nil => intro ref h; exact h
  | cons c cs ih =>
    intro ref h
    exact ih _ (null_free_step rm ref c h)

/-- The one key-array layout on which the index walk of `ref_purge` misses
nothing: when remove copies the last live key into the freed cell and leaves
every other cell as it was, the walk still finds each moved key in the stale
cell it came from, past the current `keys_n`. -/
theorem purge_swap_last_complete (r : Referee) (p : Ptr) (info : RefereeInfo)
    (hinv : ledger_inv (some r)) (hcov : keys_cover r.ptr_infos)
    (h : ref_info (some r) p = some info) (hz : info.refcount = 0) :
    ref_info (ref_purge keys_swap_last (some r)).ref p = none
      ∧ ¬ tracked (ref_purge keys_swap_last (some r)).ref p := by
  obtain ⟨_, hf⟩ := (ref_info_some_iff r p info).1 h
  have hstart := purge_inv_start r hinv.2.1 hcov
  have hdone := purge_loop_complete r.ptr_infos.keys_n 0 0 [] r hstart p
  have hfind : slot_find
      (ref_purge_loop keys_swap_last r.ptr_infos.keys_n 0 0 [] r).2.2.ptr_infos.slots p
      = none := by
    rcases purge_loop_find keys_swap_last p r.ptr_infos.keys_n 0 0 [] r with h1 | h1
    · rw [hf] at h1
      exact absurd hz (hdone info h1)
    · exact h1.1
  have hnt : ¬ tracked (ref_purge keys_swap_last (some r)).ref p :=
    (not_tracked_iff _ p).2 hfind
  exact ⟨ref_info_none_of_not_tracked _ _ hnt, hnt⟩

/-! ## Claims -/

/-- C1 (the code breaks it): `ref_purge` walks the key array by index while it
removes, without first taking a snapshot of the zero-count keys.  With a key
array that shifts the later keys down on removal, the ledger `ledger_zero3`
(three pointers, all with refcount zero) keeps pointer 32 tracked, still with
refcount zero, and the call returns 2; with a key array that moves the last
key into the freed cell and clears the cell it came from, `ledger_zero2`
keeps pointer 32 tracked and the call returns 1. -/
theorem C1_purge_misses_zero_count :
    (ref_info (some ledger_zero3) 32 = some (rec1 0 8)
      ∧ (ref_purge keys_shift_down (some ledger_zero3)).deleted_n = 2
      ∧ (ref_purge keys_shift_down (some ledger_zero3)).freed = [16, 48]
      ∧ ref_info (ref_purge keys_shift_down (some ledger_zero3)).ref 32 = some (rec1 0 8))
    ∧ (ref_info (some ledger_zero2) 32 = some (rec1 0 8)
      ∧ (ref_purge keys_swap_last_clear (some ledger_zero2)).deleted_n = 1
      ∧ (ref_purge keys_swap_last_clear (some ledger_zero2)).freed = [16]
      ∧ ref_info (ref_purge keys_swap_last_clear (some ledger_zero2)).ref 32
          = some (rec1 0 8)) := by
  decide

/-- C2: whatever the key array does on removal, after `ref_purge` a pointer
whose record had refcount > 0 still has the very same record (refcount,
el_size and el_n), and a pointer that was untracked is still untracked. -/
theorem C2_purge_preserves (rm : KeyRemoval) (ref : Option Referee) (p : Ptr) :
    (∀ info, ref_info ref p = some info → 0 < info.refcount →
        ref_info (ref_purge rm ref).ref p = some info
          ∧ ref_count (ref_purge rm ref).ref p = info.refcount
          ∧ tracked (ref_purge rm ref).ref p)
      ∧ (¬ tracked ref p →
          ¬ tracked (ref_purge rm ref).ref p ∧ ref_info (ref_purge rm ref).ref p = none) := by
  cases ref with
  | none =>
    refine ⟨?_, ?_⟩
    · intro info h; simp [ref_info] at h
    · intro _; exact ⟨by simp [ref_purge, tracked, record_of], rfl⟩
  | some r =>
    have key := purge_loop_find rm p r.ptr_infos.keys_n 0 0 [] r
    refine ⟨?_, ?_⟩
    · intro info h hpos
      obtain ⟨hp, hf⟩ := (ref_info_some_iff r p info).1 h
      have hfind : slot_find (ref_purge_loop rm r.ptr_infos.keys_n 0 0 [] r).2.2.ptr_infos.slots p
          = some info := by
        rcases key with h1 | h1
        · rw [h1]; exact hf
        · obtain ⟨info2, h2, h3⟩ := h1.2
          rw [hf] at h2
          cases h2
          omega
      have hinfo : ref_info (ref_purge rm (some r)).ref p = some info :=
        (ref_info_some_iff _ p info).2 ⟨hp, hfind⟩
      refine ⟨hinfo, ref_count_of_info _ _ _ hinfo, ?_⟩
      show slot_find _ p ≠ none
      rw [hfind]; simp
    · intro hun
      have hf := (not_tracked_iff r p).1 hun
      have hfind : slot_find (ref_purge_loop rm r.ptr_infos.keys_n 0 0 [] r).2.2.ptr_infos.slots p
          = none := by
        rcases key with h1 | h1
        · rw [h1]; exact hf
        · exact h1.1
      have hnt : ¬ tracked (ref_purge rm (some r)).ref p := (not_tracked_iff _ p).2 hfind
      exact ⟨hnt, ref_info_none_of_not_tracked _ _ hnt⟩

/-- C2 at a concrete ledger: purging `ledger_mixed` keeps pointer 32 with its
record, and the untracked pointer 64 stays untracked. -/
theorem C2_purge_preserves_witness :
    (ref_info (some ledger_mixed) 32 = some (rec1 2 8)
      ∧ ref_info (ref_purge keys_swap_last (some ledger_mixed)).ref 32 = some (rec1 2 8))
    ∧ (¬ tracked (some ledger_mixed) 64
      ∧ ¬ tracked (ref_purge keys_swap_last (some ledger_mixed)).ref 64) :=
  ⟨⟨by decide,
    ((C2_purge_preserves keys_swap_last (some ledger_mixed) 32).1 (rec1 2 8)
      (by decide) (by decide)).1⟩,
   ⟨by decide,
    ((C2_purge_preserves keys_swap_last (some ledger_mixed) 64).2 (by decide)).1⟩⟩

/-- C3: for a non-null ledger the value returned by `ref_purge` is the number
of records it removed (records before minus records after), which is also the
number of `free` calls; a ledger holding one zero-count pointer gives 1 and
the pointer is absent afterwards.  This holds whatever the key array does on
removal. -/
theorem C3_purge_returns_removed (rm : KeyRemoval) (r : Referee)
    (hinv : ledger_inv (some r)) :
    (ref_purge rm (some r)).deleted_n + tracked_n (ref_purge rm (some r)).ref
        = tracked_n (some r)
      ∧ (ref_purge rm (some r)).deleted_n
        = tracked_n (some r) - tracked_n (ref_purge rm (some r)).ref
      ∧ (ref_purge rm (some r)).deleted_n = (ref_purge rm (some r)).freed.length
      ∧ (∀ p info, p ≠ NULL → info.refcount = 0 → r.ptr_infos.slots = [(p, info)] →
          r.ptr_infos.keys_n = 1 → r.ptr_infos.keys.getD 0 NULL = p →
          (ref_purge rm (some r)).deleted_n = 1
            ∧ ref_info (ref_purge rm (some r)).ref p = none
            ∧ ¬ tracked (ref_purge rm (some r)).ref p) := by
  obtain ⟨hn, _, hk⟩ := hinv
  have key := purge_loop_count rm r.ptr_infos.keys_n 0 0 [] r hn (by omega)
  have h1 : (ref_purge rm (some r)).deleted_n + tracked_n (ref_purge rm (some r)).ref
      = tracked_n (some r) := by
    have := key.2.1
    simpa [ref_purge, tracked_n] using this
  have h3 : (ref_purge rm (some r)).deleted_n = (ref_purge rm (some r)).freed.length := by
    have := key.2.2
    simpa [ref_purge] using this
  refine ⟨h1, by omega, h3, ?_⟩
  intro p info hp hz hs hk1 hk0
  have hinfo : ref_info (some r) p = some info :=
    (ref_info_some_iff r p info).2 ⟨hp, by rw [hs]; simp [slot_find]⟩
  have hstep : ref_purge rm (some r)
      = { deleted_n := 1 % SIZE_MOD, freed := [p], ref := some (ref_unmap rm r p) } := by
    simp only [ref_purge, hk1, ref_purge_loop, hk0, hinfo, hz, if_true]
    rfl
  have hnt : ¬ tracked (some (ref_unmap rm r p)) p :=
    (not_tracked_iff _ p).2 (unmap_find_self rm r p)
  rw [hstep]
  refine ⟨?_, ref_info_none_of_not_tracked _ _ hnt, hnt⟩
  show 1 % SIZE_MOD = 1
  decide

/-- C3 at a concrete ledger: purging `ledger_mixed` returns 2 and leaves one
of its three records. -/
theorem C3_purge_returns_removed_witness :
    ledger_inv (some ledger_mixed)
      ∧ (ref_purge keys_swap_last (some ledger_mixed)).deleted_n
          + tracked_n (ref_purge keys_swap_last (some ledger_mixed)).ref
        = tracked_n (some ledger_mixed) :=
  ⟨by decide, (C3_purge_returns_removed keys_swap_last ledger_mixed (by decide)).1⟩

/-- C4: on a tracked pointer with refcount `r`, `ref_dec_c` by `c` returns the
pointer and leaves `r - c` when `r >= c` and 0 when `r < c`; `ref_dec`
returns the pointer and leaves `r - 1` when `r > 0` and 0 when `r = 0`.  The
result never exceeds `r`; from 3, decrementing by 5 gives 0. -/
theorem C4_dec_clamps (ref : Option Referee) (p : Ptr) (info : RefereeInfo) (c : Nat)
    (h : ref_info ref p = some info) :
    (ref_dec_c ref p c).1 = p
      ∧ (c ≤ info.refcount → ref_count (ref_dec_c ref p c).2 p + c = info.refcount)
      ∧ (info.refcount < c → ref_count (ref_dec_c ref p c).2 p = 0)
      ∧ ref_count (ref_dec_c ref p c).2 p ≤ info.refcount
      ∧ (ref_dec ref p).1 = p
      ∧ (0 < info.refcount → ref_count (ref_dec ref p).2 p + 1 = info.refcount)
      ∧ (info.refcount = 0 → ref_count (ref_dec ref p).2 p = 0)
      ∧ (info.refcount = 3 → ref_count (ref_dec_c ref p 5).2 p = 0) := by
  have hc := (ref_dec_c_count ref p info c h).2
  have hd := (ref_dec_count ref p info h).2
  have h5 := (ref_dec_c_count ref p info 5 h).2
  refine ⟨(ref_dec_c_count ref p info c h).1, ?_, ?_, ?_, (ref_dec_count ref p info h).1,
    ?_, ?_, ?_⟩
  · intro hle; rw [hc, if_pos hle]; omega
  · intro hlt; rw [hc, if_neg (by omega)]
  · rw [hc]; split <;> omega
  · intro hpos; rw [hd, if_pos hpos]; omega
  · intro hz; rw [hd, if_neg (by omega)]
  · intro h3; rw [h5, if_neg (by omega)]

/-- C4 at a concrete ledger: pointer 32 of `ledger_mixed` has refcount 2;
decrementing by 5 leaves 0. -/
theorem C4_dec_clamps_witness :
    ref_info (some ledger_mixed) 32 = some (rec1 2 8)
      ∧ ref_count (ref_dec_c (some ledger_mixed) 32 5).2 32 = 0 :=
  ⟨by decide,
   (C4_dec_clamps (some ledger_mixed) 32 (rec1 2 8) 5 (by decide)).2.2.1 (by decide)⟩

/-- C5 (as stated it fails): pointer 16 of `ledger_full` is tracked with
refcount `2^64 - 1`; adding it again with `init_refs = 1` returns the pointer
and leaves refcount 0, so the refcount did not grow by `init_refs`. -/
theorem C5_readd_wraps :
    ref_info (some ledger_full) 16 = some (rec1 (SIZE_MOD - 1) 8)
      ∧ (ref_add_n true (some ledger_full) 16 8 1 1).1 = 16
      ∧ ref_count (ref_add_n true (some ledger_full) 16 8 1 1).2 16 = 0
      ∧ ¬ (ref_count (ref_add_n true (some ledger_full) 16 8 1 1).2 16
            = ref_count (some ledger_full) 16 + 1) := by
  decide

/-- C5 (amended): adding an already tracked pointer again returns the pointer
and gives exactly the ledger `ref_inc_c` with `init_refs` gives: el_size and
el_n stay those of the first registration, the refcount becomes
`(r + init_refs) mod 2^64` (so `r + init_refs` when that fits a size_t), the
number of records does not change and no other record changes.  Adding a
fresh pointer with 2 references and then again with 3 gives a count of 5. -/
theorem C5_readd_merges (ok : Bool) (ref : Option Referee) (p : Ptr) (info : RefereeInfo)
    (el_size el_n init_refs : Nat) (h : ref_info ref p = some info) :
    ref_add_n ok ref p el_size el_n init_refs = ref_inc_c ref p init_refs
      ∧ (ref_add_n ok ref p el_size el_n init_refs).1 = p
      ∧ ref_info (ref_add_n ok ref p el_size el_n init_refs).2 p
        = some { refcount := (info.refcount + init_refs) % SIZE_MOD,
                 el_n := info.el_n, el_size := info.el_size }
      ∧ (info.refcount + init_refs < SIZE_MOD →
          ref_count (ref_add_n ok ref p el_size el_n init_refs).2 p
            = info.refcount + init_refs)
      ∧ tracked_n (ref_add_n ok ref p el_size el_n init_refs).2 = tracked_n ref
      ∧ (∀ q, q ≠ p →
          ref_info (ref_add_n ok ref p el_size el_n init_refs).2 q = ref_info ref q)
      ∧ (∀ (r : Referee) (q s n : Nat), q ≠ NULL → ¬ tracked (some r) q →
          ref_count (ref_add_n ok (ref_add_n true (some r) q s n 2).2 q s n 3).2 q = 5) := by
  have hinc := ref_inc_c_count ref p info init_refs h
  rw [ref_add_n_tracked ok ref p info el_size el_n init_refs h]
  refine ⟨rfl, hinc.1, hinc.2.1, ?_, ?_, ?_, ?_⟩
  · intro hlt
    rw [hinc.2.2, Nat.mod_eq_of_lt hlt]
  · rw [ref_inc_c_eq ref p info init_refs h]
    exact tracked_n_store _ _ _
  · intro q hq
    rw [ref_inc_c_eq ref p info init_refs h]
    exact ref_info_store_ne _ _ _ _ hq
  · intro r q s n hq hun
    have hf := (not_tracked_iff r q).1 hun
    rw [ref_add_n_fresh r q s n 2 hq hf]
    have h1 : ref_info (some (ref_inserted r q { refcount := 2, el_n := n, el_size := s })) q
        = some { refcount := 2, el_n := n, el_size := s } := by
      rw [ref_info_of_ne _ q hq]
      show slot_find (r.ptr_infos.slots ++ [(q, _)]) q = _
      rw [slot_find_append, hf]
      simp
    show ref_count (ref_add_n ok (some _) q s n 3).2 q = 5
    rw [ref_add_n_tracked ok _ q _ s n 3 h1, (ref_inc_c_count _ q _ 3 h1).2.2]
    show (2 + 3) % SIZE_MOD = 5
    decide

/-- C5 (amended) at a concrete ledger: pointer 7 added to the empty ledger
with 2 references and then again with 3 has a count of 5. -/
theorem C5_readd_merges_witness :
    ref_info (ref_add_n true (some ref_empty) 7 16 1 2).2 7 = some (rec1 2 16)
      ∧ ref_count (ref_add_n true (ref_add_n true (some ref_empty) 7 16 1 2).2 7 16 1 3).2 7
        = 2 + 3 :=
  ⟨by decide,
   (C5_readd_merges true (ref_add_n true (some ref_empty) 7 16 1 2).2 7 (rec1 2 16) 16 1 3
      (by decide)).2.2.2.1 (by decide)⟩

/-- C6: adding a non-null pointer that is not tracked (the map insert
succeeding) returns the pointer; afterwards its record has refcount
`init_refs` and the given el_size and el_n, `ref_count` is `init_refs`, every
other pointer has the record it had, and there is one record more.
`ref_new_n` and `ref_new` do the same with the pointer the allocator
returned. -/
theorem C6_fresh_registration (r : Referee) (p : Ptr) (el_size el_n init_refs : Nat)
    (malloc : Nat → Ptr) (hp : p ≠ NULL) (hun : ¬ tracked (some r) p) :
    (ref_add_n true (some r) p el_size el_n init_refs).1 = p
      ∧ ref_info (ref_add_n true (some r) p el_size el_n init_refs).2 p
        = some { refcount := init_refs, el_n := el_n, el_size := el_size }
      ∧ ref_count (ref_add_n true (some r) p el_size el_n init_refs).2 p = init_refs
      ∧ (∀ q, q ≠ p →
          ref_info (ref_add_n true (some r) p el_size el_n init_refs).2 q
              = ref_info (some r) q
            ∧ record_of (ref_add_n true (some r) p el_size el_n init_refs).2 q
              = record_of (some r) q)
      ∧ tracked_n (ref_add_n true (some r) p el_size el_n init_refs).2
        = tracked_n (some r) + 1
      ∧ (malloc ((el_size * el_n) % SIZE_MOD) = p →
          ref_new_n malloc true (some r) el_size el_n init_refs
              = ref_add_n true (some r) p el_size el_n init_refs
            ∧ (ref_new_n malloc true (some r) el_size el_n init_refs).1 = p
            ∧ ref_count (ref_new_n malloc true (some r) el_size el_n init_refs).2 p
              = init_refs)
      ∧ (malloc ((el_size * 1) % SIZE_MOD) = p →
          ref_new malloc true (some r) el_size init_refs
              = ref_add_n true (some r) p el_size 1 init_refs
            ∧ (ref_new malloc true (some r) el_size init_refs).1 = p
            ∧ ref_count (ref_new malloc true (some r) el_size init_refs).2 p
              = init_refs) := by
  have hf := (not_tracked_iff r p).1 hun
  have hfresh : ∀ n, ref_info (ref_add_n true (some r) p el_size n init_refs).2 p
      = some { refcount := init_refs, el_n := n, el_size := el_size } := by
    intro n
    rw [ref_add_n_fresh r p el_size n init_refs hp hf]
    show ref_info (some _) p = _
    rw [ref_info_of_ne _ p hp]
    show slot_find (r.ptr_infos.slots ++ [(p, _)]) p = _
    rw [slot_find_append, hf]
    simp
  have hret : ∀ n, (ref_add_n true (some r) p el_size n init_refs).1 = p := by
    intro n
    rw [ref_add_n_fresh r p el_size n init_refs hp hf]
  have hnew : ∀ n, malloc ((el_size * n) % SIZE_MOD) = p →
      ref_new_n malloc true (some r) el_size n init_refs
        = ref_add_n true (some r) p el_size n init_refs := by
    intro n hm
    unfold ref_new_n
    simp only [hm]
    rw [if_pos hp]
  refine ⟨hret el_n, hfresh el_n, ref_count_of_info _ _ _ (hfresh el_n), ?_, ?_, ?_, ?_⟩
  · intro q hq
    rw [ref_add_n_fresh r p el_size el_n init_refs hp hf]
    have hs : slot_find (ref_inserted r p
        { refcount := init_refs, el_n := el_n, el_size := el_size }).ptr_infos.slots q
        = slot_find r.ptr_infos.slots q := by
      show slot_find (r.ptr_infos.slots ++ [(p, _)]) q = _
      rw [slot_find_append]
      have hpq : ¬ p = q := fun h => hq h.symm
      cases hq2 : slot_find r.ptr_infos.slots q with
      | none => simp [hpq]
      | some w => rfl
    exact ⟨ref_info_congr _ _ _ hs, hs⟩
  · rw [ref_add_n_fresh r p el_size el_n init_refs hp hf]
    show (r.ptr_infos.slots ++ [(p, _)]).length = r.ptr_infos.slots.length + 1
    simp
  · intro hm
    rw [hnew el_n hm]
    exact ⟨rfl, hret el_n, ref_count_of_info _ _ _ (hfresh el_n)⟩
  · intro hm
    have h1 : ref_new malloc true (some r) el_size init_refs
        = ref_add_n true (some r) p el_size 1 init_refs := hnew 1 hm
    rw [h1]
    exact ⟨rfl, hret 1, ref_count_of_info _ _ _ (hfresh 1)⟩

/-- C6 at a concrete call: `ref_new_n` with el_size 8, el_n 4 and one initial
reference on the empty ledger, the allocator handing out address 4096. -/
theorem C6_fresh_registration_witness :
    (4096 ≠ NULL ∧ ¬ tracked (some ref_empty) 4096)
      ∧ (ref_new_n (fun _ => 4096) true (some ref_empty) 8 4 1).1 = 4096
      ∧ ref_count (ref_new_n (fun _ => 4096) true (some ref_empty) 8 4 1).2 4096 = 1 :=
  ⟨⟨by decide, by decide⟩,
   ((C6_fresh_registration ref_empty 4096 8 4 1 (fun _ => 4096) (by decide)
      (by decide)).2.2.2.2.2.1 rfl).2⟩

/-- C7 (as stated it fails): pointer 16 of `ledger_full` is tracked with
refcount `2^64 - 1`; `ref_inc_c` by 1 and `ref_inc` return the pointer and
leave refcount 0, not `r + 1`. -/
theorem C7_inc_wraps :
    ref_count (some ledger_full) 16 = SIZE_MOD - 1
      ∧ (ref_inc_c (some ledger_full) 16 1).1 = 16
      ∧ ref_count (ref_inc_c (some ledger_full) 16 1).2 16 = 0
      ∧ ref_count (ref_inc (some ledger_full) 16).2 16 = 0
      ∧ ¬ (ref_count (ref_inc_c (some ledger_full) 16 1).2 16
            = ref_count (some ledger_full) 16 + 1) := by
  decide

/-- C7 (amended): on a tracked pointer with refcount `r`, `ref_inc_c` by `n`
returns the pointer and leaves `ref_count` equal to `(r + n) mod 2^64`, which
is `r + n` whenever `r + n` fits a size_t; `ref_inc` returns the pointer and
leaves `(r + 1) mod 2^64`, which is `r + 1` whenever that fits.  Two
`ref_inc` calls on a count of 1 give 3. -/
theorem C7_inc_adds (ref : Option Referee) (p : Ptr) (info : RefereeInfo) (n : Nat)
    (h : ref_info ref p = some info) :
    (ref_inc_c ref p n).1 = p
      ∧ ref_count (ref_inc_c ref p n).2 p = (info.refcount + n) % SIZE_MOD
      ∧ (info.refcount + n < SIZE_MOD →
          ref_count (ref_inc_c ref p n).2 p = info.refcount + n)
      ∧ (ref_inc ref p).1 = p
      ∧ ref_count (ref_inc ref p).2 p = (info.refcount + 1) % SIZE_MOD
      ∧ (info.refcount + 1 < SIZE_MOD → ref_count (ref_inc ref p).2 p = info.refcount + 1)
      ∧ (info.refcount = 1 → ref_count (ref_inc (ref_inc ref p).2 p).2 p = 3) := by
  have hc := ref_inc_c_count ref p info n h
  have h1 := ref_inc_count ref p info h
  refine ⟨hc.1, hc.2.2, ?_, h1.1, h1.2.2, ?_, ?_⟩
  · intro hlt; rw [hc.2.2, Nat.mod_eq_of_lt hlt]
  · intro hlt; rw [h1.2.2, Nat.mod_eq_of_lt hlt]
  · intro hr
    have h2 := ref_inc_count (ref_inc ref p).2 p _ h1.2.1
    rw [h2.2.2, hr]
    show ((1 + 1) % SIZE_MOD + 1) % SIZE_MOD = 3
    decide

/-- C7 (amended) at a concrete ledger: pointer 32 of `ledger_mixed` has
refcount 2; `ref_inc_c` by 40 leaves 42. -/
theorem C7_inc_adds_witness :
    ref_info (some ledger_mixed) 32 = some (rec1 2 8)
      ∧ ref_count (ref_inc_c (some ledger_mixed) 32 40).2 32 = 2 + 40 :=
  ⟨by decide,
   (C7_inc_adds (some ledger_mixed) 32 (rec1 2 8) 40 (by decide)).2.2.1 (by decide)⟩

/-- C8: on a pointer that has no record (in any ledger, the null ledger
included), `ref_inc`, `ref_inc_c`, `ref_dec` and `ref_dec_c` return null and
give back the ledger unchanged. -/
theorem C8_untracked_inert (ref : Option Referee) (p : Ptr) (c : Nat)
    (h : ¬ tracked ref p) :
    ref_inc ref p = (NULL, ref)
      ∧ ref_inc_c ref p c = (NULL, ref)
      ∧ ref_dec ref p = (NULL, ref)
      ∧ ref_dec_c ref p c = (NULL, ref) := by
  have hi := ref_info_none_of_not_tracked ref p h
  refine ⟨?_, ?_, ?_, ?_⟩
  · unfold ref_inc; rw [hi]
  · unfold ref_inc_c; rw [hi]
  · unfold ref_dec; rw [hi]
  · unfold ref_dec_c; rw [hi]

/-- C8 at a concrete ledger: pointer 64 is not tracked by `ledger_mixed`. -/
theorem C8_untracked_inert_witness :
    ¬ tracked (some ledger_mixed) 64
      ∧ ref_dec_c (some ledger_mixed) 64 3 = (NULL, some ledger_mixed) :=
  ⟨by decide, (C8_untracked_inert (some ledger_mixed) 64 3 (by decide)).2.2.2⟩

/-- C9: in a ledger that satisfies the map invariant (unique keys, null is not
a key), `ref_info` gives exactly the record the mapping holds, so it is
non-null exactly when the pointer is tracked; `ref_count` is the refcount of
that record when there is one and 0 when there is none.  Both queries are
functions of the ledger only: they produce no new ledger. -/
theorem C9_queries (ref : Option Referee) (p : Ptr) (hinv : ledger_inv ref) :
    (ref_info ref p ≠ none ↔ tracked ref p)
      ∧ ref_info ref p = record_of ref p
      ∧ (∀ info, record_of ref p = some info → ref_count ref p = info.refcount)
      ∧ (¬ tracked ref p → ref_count ref p = 0) := by
  have heq : ref_info ref p = record_of ref p := by
    cases ref with
    | none => rfl
    | some r =>
      by_cases hp : p = NULL
      · subst hp
        rw [ref_info_null]
        exact ((slot_find_none_iff _ _).2 hinv.2.1).symm
      · exact ref_info_of_ne r p hp
  refine ⟨?_, heq, ?_, ?_⟩
  · rw [heq]; rfl
  · intro info hrec
    rw [← heq] at hrec
    exact ref_count_of_info _ _ _ hrec
  · intro hun
    unfold ref_count
    rw [ref_info_none_of_not_tracked ref p hun]

/-- C9 at a concrete ledger: `ledger_mixed` satisfies the invariant and the
count of its pointer 32 is 2. -/
theorem C9_queries_witness :
    ledger_inv (some ledger_mixed)
      ∧ record_of (some ledger_mixed) 32 = some (rec1 2 8)
      ∧ ref_count (some ledger_mixed) 32 = (rec1 2 8).refcount :=
  ⟨by decide, by decide,
   (C9_queries (some ledger_mixed) 32 (by decide)).2.2.1 (rec1 2 8) (by decide)⟩

/-- C10: on a non-null ledger `ref_remove` returns the pointer it was given;
afterwards that pointer is untracked (`ref_info` null, `ref_count` 0), every
other pointer has the record it had, and a following `ref_purge` does not
pass the pointer to `free`, leaves it untracked and (in a ledger satisfying
the map invariant) returns the number of pointers it did free. -/
theorem C10_remove_untracks (rm rm2 : KeyRemoval) (r : Referee) (p : Ptr) :
    ref_remove rm (some r) p = some (p, some (ref_unmap rm r p))
      ∧ ref_info (some (ref_unmap rm r p)) p = none
      ∧ ref_count (some (ref_unmap rm r p)) p = 0
      ∧ ¬ tracked (some (ref_unmap rm r p)) p
      ∧ (∀ q, q ≠ p →
          ref_info (some (ref_unmap rm r p)) q = ref_info (some r) q
            ∧ record_of (some (ref_unmap rm r p)) q = record_of (some r) q)
      ∧ p ∉ (ref_purge rm2 (some (ref_unmap rm r p))).freed
      ∧ ¬ tracked (ref_purge rm2 (some (ref_unmap rm r p))).ref p
      ∧ (ledger_inv (some r) →
          (ref_purge rm2 (some (ref_unmap rm r p))).deleted_n
            = (ref_purge rm2 (some (ref_unmap rm r p))).freed.length) := by
  have hf := unmap_find_self rm r p
  have hnt : ¬ tracked (some (ref_unmap rm r p)) p := (not_tracked_iff _ p).2 hf
  have hi := ref_info_none_of_not_tracked _ _ hnt
  refine ⟨rfl, hi, ?_, hnt, ?_, ?_, ?_, ?_⟩
  · unfold ref_count; rw [hi]
  · intro q hq
    have hs := unmap_find_ne rm r p q hq
    exact ⟨ref_info_congr _ _ _ hs, hs⟩
  · intro hmem
    have hmem2 : p ∈ (ref_purge_loop rm2 (ref_unmap rm r p).ptr_infos.keys_n 0 0 []
        (ref_unmap rm r p)).2.1 := hmem
    rcases purge_loop_freed rm2 p _ _ _ _ _ hmem2 with h1 | h1
    · simp at h1
    · obtain ⟨info, h2, _⟩ := h1
      rw [hf] at h2
      cases h2
  · apply (not_tracked_iff _ p).2
    rcases purge_loop_find rm2 p (ref_unmap rm r p).ptr_infos.keys_n 0 0 []
      (ref_unmap rm r p) with h1 | h1
    · show slot_find (ref_purge_loop rm2 _ 0 0 [] _).2.2.ptr_infos.slots p = none
      rw [h1]; exact hf
    · exact h1.1
  · intro hinv
    have hinv2 := unmap_inv rm r p hinv
    have key := purge_loop_count rm2 (ref_unmap rm r p).ptr_infos.keys_n 0 0 []
      (ref_unmap rm r p) hinv2.1 (by have := hinv2.2.2; omega)
    have := key.2.2
    simpa [ref_purge] using this

/-- C10 at a concrete ledger: after `ref_remove` of pointer 16 (refcount 0)
from `ledger_mixed`, pointer 32 keeps its record and a purge frees only 48. -/
theorem C10_remove_untracks_witness :
    (32 ≠ 16 ∧ ledger_inv (some ledger_mixed))
      ∧ ref_info (some (ref_unmap keys_swap_last ledger_mixed 16)) 32
          = ref_info (some ledger_mixed) 32
      ∧ (ref_purge keys_swap_last (some (ref_unmap keys_swap_last ledger_mixed 16))).deleted_n
          = (ref_purge keys_swap_last
              (some (ref_unmap keys_swap_last ledger_mixed 16))).freed.length :=
  ⟨⟨by decide, by decide⟩,
   ((C10_remove_untracks keys_swap_last keys_swap_last ledger_mixed 16).2.2.2.2.1 32
      (by decide)).1,
   (C10_remove_untracks keys_swap_last keys_swap_last ledger_mixed 16).2.2.2.2.2.2.2
      (by decide)⟩

/-- C11: on a non-null ledger, `ref_remove` of the same pointer twice leaves
the ledger that a single `ref_remove` leaves, and both calls return the
pointer (whatever the key array does on removal). -/
theorem C11_remove_idempotent (rm : KeyRemoval) (r : Referee) (p : Ptr) :
    ref_remove rm (some r) p = some (p, some (ref_unmap rm r p))
      ∧ ref_remove rm (some (ref_unmap rm r p)) p = some (p, some (ref_unmap rm r p))
      ∧ (ref_remove rm (some r) p).bind (fun out => ref_remove rm out.2 p)
        = ref_remove rm (some r) p := by
  have h2 : ref_remove rm (some (ref_unmap rm r p)) p = some (p, some (ref_unmap rm r p)) := by
    show some (p, some (ref_unmap rm (ref_unmap rm r p) p)) = _
    rw [unmap_absent rm (ref_unmap rm r p) p (unmap_find_self rm r p)]
  refine ⟨rfl, h2, ?_⟩
  show ref_remove rm (some (ref_unmap rm r p)) p = some (p, some (ref_unmap rm r p))
  exact h2

/-- C12: on a tracked pointer `p`, each of `ref_inc`, `ref_inc_c`, `ref_dec`
and `ref_dec_c` (a decrement reaching 0 included) leaves a ledger that
differs from the one before at most in the refcount of `p`: the same pointers
are tracked, `p` is still tracked with its el_size and el_n, and every other
pointer has the record it had. -/
theorem C12_refcount_ops_frame (ref : Option Referee) (p : Ptr) (info : RefereeInfo) (c : Nat)
    (h : ref_info ref p = some info) :
    refcount_only ref p info (ref_inc ref p).2
      ∧ refcount_only ref p info (ref_inc_c ref p c).2
      ∧ refcount_only ref p info (ref_dec ref p).2
      ∧ refcount_only ref p info (ref_dec_c ref p c).2
      ∧ (info.refcount ≤ c → ref_count (ref_dec_c ref p c).2 p = 0
          ∧ tracked (ref_dec_c ref p c).2 p) := by
  have hd : refcount_only ref p info (ref_dec ref p).2 := by
    rw [ref_dec_eq ref p info h]
    by_cases hpos : info.refcount > 0
    · rw [if_pos hpos]; exact refcount_only_store ref p info _ h
    · rw [if_neg hpos]
      have := refcount_only_store ref p info info.refcount h
      rw [ref_store_same ref p info h] at this
      exact this
  have hdc : refcount_only ref p info (ref_dec_c ref p c).2 := by
    rw [ref_dec_c_eq ref p info c h]
    by_cases hle : info.refcount ≥ c
    · rw [if_pos hle]; exact refcount_only_store ref p info _ h
    · rw [if_neg hle]; exact refcount_only_store ref p info _ h
  refine ⟨?_, ?_, hd, hdc, ?_⟩
  · rw [ref_inc_eq ref p info h]; exact refcount_only_store ref p info _ h
  · rw [ref_inc_c_eq ref p info c h]; exact refcount_only_store ref p info _ h
  · intro hle
    refine ⟨?_, hdc.2.2.1⟩
    rw [(ref_dec_c_count ref p info c h).2]
    split <;> omega

/-- C12 at a concrete ledger: decrementing pointer 32 of `ledger_mixed`
(refcount 2) by 2 leaves it tracked with count 0 and the other records as
they were. -/
theorem C12_refcount_ops_frame_witness :
    (ref_info (some ledger_mixed) 32 = some (rec1 2 8) ∧ (rec1 2 8).refcount ≤ 2)
      ∧ refcount_only (some ledger_mixed) 32 (rec1 2 8) (ref_dec_c (some ledger_mixed) 32 2).2
      ∧ ref_count (ref_dec_c (some ledger_mixed) 32 2).2 32 = 0 :=
  ⟨⟨by decide, by decide⟩,
   (C12_refcount_ops_frame (some ledger_mixed) 32 (rec1 2 8) 2 (by decide)).2.2.2.1,
   ((C12_refcount_ops_frame (some ledger_mixed) 32 (rec1 2 8) 2 (by decide)).2.2.2.2
      (by decide)).1⟩

/-- C13: on a non-null ledger, `ref_info`, `ref_add_n`, `ref_add`, `ref_inc`,
`ref_inc_c`, `ref_dec` and `ref_dec_c` called with the null pointer return
null and give back the same ledger, `ref_count` returns 0, and `ref_remove`
returns the null pointer it was given and, when the map holds no record for
the null pointer (as in every ledger built by the operations), gives back the
same ledger. -/
theorem C13_null_pointer (rm : KeyRemoval) (ok : Bool) (r : Referee)
    (el_size el_n init_refs c : Nat) :
    ref_info (some r) NULL = none
      ∧ ref_count (some r) NULL = 0
      ∧ ref_add_n ok (some r) NULL el_size el_n init_refs = (NULL, some r)
      ∧ ref_add ok (some r) NULL el_size init_refs = (NULL, some r)
      ∧ ref_inc (some r) NULL = (NULL, some r)
      ∧ ref_inc_c (some r) NULL c = (NULL, some r)
      ∧ ref_dec (some r) NULL = (NULL, some r)
      ∧ ref_dec_c (some r) NULL c = (NULL, some r)
      ∧ (ref_remove rm (some r) NULL).map Prod.fst = some NULL
      ∧ (¬ tracked (some r) NULL →
          ref_remove rm (some r) NULL = some (NULL, some r)) := by
  have hi : ref_info (some r) NULL = none := ref_info_null _
  refine ⟨hi, ?_, ?_, ?_, ?_, ?_, ?_, ?_, rfl, ?_⟩
  · unfold ref_count; rw [hi]
  · simp [ref_add_n]
  · simp [ref_add, ref_add_n]
  · unfold ref_inc; rw [hi]
  · unfold ref_inc_c; rw [hi]
  · unfold ref_dec; rw [hi]
  · unfold ref_dec_c; rw [hi]
  · intro hun
    have hf : slot_find r.ptr_infos.slots NULL = none := (not_tracked_iff r NULL).1 hun
    show some (NULL, some (ref_unmap rm r NULL)) = _
    rw [unmap_absent rm r NULL hf]

/-- C13 at a concrete ledger: `ref_remove` of the null pointer gives back
`ledger_mixed` unchanged. -/
theorem C13_null_pointer_witness :
    ¬ tracked (some ledger_mixed) NULL
      ∧ ref_remove keys_swap_last (some ledger_mixed) NULL = some (NULL, some ledger_mixed) :=
  ⟨by decide,
   (C13_null_pointer keys_swap_last true ledger_mixed 8 1 1 1).2.2.2.2.2.2.2.2.2 (by decide)⟩

/-- C14 (the code breaks it for `ref_remove`): with a null ledger `ref_info`,
`ref_add_n`, `ref_add`, `ref_inc`, `ref_inc_c`, `ref_dec` and `ref_dec_c`
return null, `ref_count` returns 0 and `ref_purge` returns `REFEREE_INVALID`
without freeing anything, the ledger staying null; `ref_remove` has no null
check, hands the map inside the null ledger to `ref__map_remove` and so has
no result. -/
theorem C14_null_ledger (rm : KeyRemoval) (ok : Bool) (p el_size el_n init_refs c : Nat) :
    ref_info none p = none
      ∧ ref_count none p = 0
      ∧ ref_add_n ok none p el_size el_n init_refs = (NULL, none)
      ∧ ref_add ok none p el_size init_refs = (NULL, none)
      ∧ ref_inc none p = (NULL, none)
      ∧ ref_inc_c none p c = (NULL, none)
      ∧ ref_dec none p = (NULL, none)
      ∧ ref_dec_c none p c = (NULL, none)
      ∧ ref_purge rm none = { deleted_n := REFEREE_INVALID, freed := [], ref := none }
      ∧ REFEREE_INVALID = 2 ^ 64 - 1
      ∧ ref_remove rm none p = none :=
  ⟨rfl, rfl, rfl, rfl, rfl, rfl, rfl, rfl, rfl, rfl, rfl⟩

/-- C15: when the allocator returns null, `ref_new_n` and `ref_new` return null
and give back the ledger they were given, for every ledger (the null ledger
included), whether or not a map insert would succeed. -/
theorem C15_alloc_failure_atomic (malloc : Nat → Ptr) (ok : Bool) (ref : Option Referee)
    (el_size el_n init_refs : Nat) :
    (malloc ((el_size * el_n) % SIZE_MOD) = NULL →
        ref_new_n malloc ok ref el_size el_n init_refs = (NULL, ref))
      ∧ (malloc ((el_size * 1) % SIZE_MOD) = NULL →
        ref_new malloc ok ref el_size init_refs = (NULL, ref)) := by
  have key : ∀ n, malloc ((el_size * n) % SIZE_MOD) = NULL →
      ref_new_n malloc ok ref el_size n init_refs = (NULL, ref) := by
    intro n hm
    unfold ref_new_n
    simp only [hm]
    rw [if_neg (by simp)]
  exact ⟨key el_n, key 1⟩

/-- C15 at a concrete call: an allocator that always fails, on `ledger_mixed`. -/
theorem C15_alloc_failure_atomic_witness :
    ref_new_n (fun _ => NULL) true (some ledger_mixed) 8 4 1 = (NULL, some ledger_mixed) :=
  (C15_alloc_failure_atomic (fun _ => NULL) true (some ledger_mixed) 8 4 1).1 rfl

/-- C16 (the code breaks it): for a pointer that is not tracked `ref_dup` calls
neither `malloc` nor `memcpy` and gives back the same ledger, but what it
returns is the value the variable `result` held on entry: the function never
declares it and never assigns it on this path.  On the empty ledger, with
`result` holding 4096, `ref_dup` of the untracked pointer 16 returns 4096. -/
theorem C16_dup_untracked (result0 bytes_n : Nat) (malloc : Nat → Ptr) (ok : Bool)
    (ref : Option Referee) (p init_refs : Nat) :
    (¬ tracked ref p →
        ref_dup result0 bytes_n malloc ok ref p init_refs
          = { result := result0, mallocs := [], memcpys := [], ref := ref })
      ∧ (ref_dup 4096 bytes_n malloc ok (some ref_empty) 16 init_refs).result = 4096
      ∧ ¬ tracked (some ref_empty) 16 := by
  refine ⟨?_, rfl, by decide⟩
  intro h
  unfold ref_dup
  rw [ref_info_none_of_not_tracked ref p h]

/-- C16 at a concrete call: `ref_dup` of the untracked pointer 64 on
`ledger_mixed`, with `result` holding 4096 on entry. -/
theorem C16_dup_untracked_witness :
    ¬ tracked (some ledger_mixed) 64
      ∧ ref_dup 4096 8 (fun _ => 8192) true (some ledger_mixed) 64 1
        = { result := 4096, mallocs := [], memcpys := [], ref := some ledger_mixed } :=
  ⟨by decide,
   (C16_dup_untracked 4096 8 (fun _ => 8192) true (some ledger_mixed) 64 1).1 (by decide)⟩

/-- C17: starting from the empty ledger, after any finite sequence of
`ref_add_n`, `ref_add`, `ref_new_n`, `ref_new`, `ref_remove`, `ref_inc`,
`ref_inc_c`, `ref_dec`, `ref_dec_c` and `ref_purge` calls with arbitrary
arguments (any allocator, map inserts succeeding or failing, any behaviour of
the key array on removal) the map holds no record for the null pointer and
`ref_info` of the null pointer is null. -/
theorem C17_null_never_tracked (rm : KeyRemoval) (calls : List Call) :
    record_of (call_run rm (some ref_empty) calls) NULL = none
      ∧ ¬ tracked (call_run rm (some ref_empty) calls) NULL
      ∧ ref_info (call_run rm (some ref_empty) calls) NULL = none
      ∧ ref_count (call_run rm (some ref_empty) calls) NULL = 0 := by
  have h := null_free_run rm calls (some ref_empty) rfl
  have hi := ref_info_null (call_run rm (some ref_empty) calls)
  refine ⟨h, ?_, hi, ?_⟩
  · unfold tracked
    rw [h]
    simp
  · unfold ref_count
    rw [hi]

/-- C18: for a tracked pointer with refcount `r` and a `c` with `r + c` not
above the largest size_t, `ref_inc_c` by `c` followed by `ref_dec_c` by `c`
returns the pointer both times and gives back exactly the ledger it started
from. -/
theorem C18_inc_dec_round_trip (ref : Option Referee) (p : Ptr) (info : RefereeInfo) (c : Nat)
    (h : ref_info ref p = some info) (hfit : info.refcount + c ≤ SIZE_MOD - 1) :
    (ref_inc_c ref p c).1 = p
      ∧ (ref_dec_c (ref_inc_c ref p c).2 p c).1 = p
      ∧ (ref_dec_c (ref_inc_c ref p c).2 p c).2 = ref
      ∧ ref_count (ref_dec_c (ref_inc_c ref p c).2 p c).2 p = info.refcount := by
  have hM : 0 < SIZE_MOD := by decide
  have hmod : (info.refcount + c) % SIZE_MOD = info.refcount + c :=
    Nat.mod_eq_of_lt (by omega)
  have hinc := ref_inc_c_count ref p info c h
  have hstate : (ref_dec_c (ref_inc_c ref p c).2 p c).2 = ref := by
    rw [ref_dec_c_eq _ p _ c hinc.2.1]
    have hge : ({ info with refcount := (info.refcount + c) % SIZE_MOD } : RefereeInfo).refcount
        ≥ c := by
      show (info.refcount + c) % SIZE_MOD ≥ c
      rw [hmod]; omega
    rw [if_pos hge, ref_inc_c_eq ref p info c h]
    show ref_store (ref_store ref p _) p _ = ref
    rw [ref_store_store]
    show ref_store ref p { info with refcount := (info.refcount + c) % SIZE_MOD - c } = ref
    rw [info_with_refcount info _ (by rw [hmod]; omega)]
    exact ref_store_same ref p info h
  refine ⟨hinc.1, (ref_dec_c_count _ p _ c hinc.2.1).1, hstate, ?_⟩
  rw [hstate]
  exact ref_count_of_info ref p info h

/-- C18 at a concrete ledger: incrementing pointer 32 of `ledger_mixed` by 5
and decrementing it by 5 gives back `ledger_mixed`. -/
theorem C18_inc_dec_round_trip_witness :
    (ref_info (some ledger_mixed) 32 = some (rec1 2 8) ∧ (rec1 2 8).refcount + 5 ≤ SIZE_MOD - 1)
      ∧ (ref_dec_c (ref_inc_c (some ledger_mixed) 32 5).2 32 5).2 = some ledger_mixed :=
  ⟨⟨by decide, by decide⟩,
   (C18_inc_dec_round_trip (some ledger_mixed) 32 (rec1 2 8) 5 (by decide) (by decide)).2.2.1⟩

/-- C19: for every ledger and pointer (tracked or not, null or not) `ref_inc`
returns the pointer and the ledger that `ref_inc_c` with count 1 returns,
`ref_dec` those that `ref_dec_c` with count 1 returns, and `ref_add` those
that `ref_add_n` with el_n 1 returns. -/
theorem C19_single_step_agrees (ok : Bool) (ref : Option Referee) (p size c : Nat) :
    ref_inc ref p = ref_inc_c ref p 1
      ∧ ref_dec ref p = ref_dec_c ref p 1
      ∧ ref_add ok ref p size c = ref_add_n ok ref p size 1 c := by
  refine ⟨rfl, ?_, rfl⟩
  cases h : ref_info ref p with
  | none =>
    unfold ref_dec ref_dec_c
    rw [h]
  | some info =>
    rw [ref_dec_eq ref p info h, ref_dec_c_eq ref p info 1 h]
    by_cases hpos : info.refcount > 0
    · have hge : info.refcount ≥ 1 := hpos
      rw [if_pos hpos, if_pos hge]
    · have hge : ¬ info.refcount ≥ 1 := by omega
      rw [if_neg hpos, if_neg hge, info_with_refcount info 0 (by omega),
        ref_store_same ref p info h]

end RefereeLedger
